import Mathlib

/-!
Verification of the myra-transport benchmark tooling
(scripts/bench_diff.py and scripts/bench_table.py).

The development shallowly embeds the two Python scripts:

* JSON values are modelled by the inductive type JValue; Python dicts are
  association lists in insertion order (JSON object keys are distinct).
* Python floats are modelled by exact rationals.  Decimal formatting
  (the .3f, .6f, +.2f and +.6g conversions) is implemented over the
  rationals with round-half-to-even, which agrees with CPython on every
  value whose decimal text is the exact rational (all concrete inputs
  used below).  Binary double rounding noise is out of scope.
* Fallible operations (attribute errors, unorderable sort keys, the
  SystemExit raised for non-array inputs) are modelled with Except.

Definitions are translated from the Python source; comments note the
source function each one embeds.
-/

set_option maxRecDepth 10000

unseal Rat.mul Rat.inv Rat.add Rat.sub Rat.ofScientific

/-- JSON values as produced by json.load / json.loads.  Objects keep the
textual field order; keys of one object are distinct.  NaN and Infinity
literals are not modelled (the repository never produces them). -/
inductive JValue where
  | null
  | bool (b : Bool)
  | num (q : ℚ)
  | str (s : String)
  | arr (elems : List JValue)
  | obj (fields : List (String × JValue))

/-- Python truthiness of a JSON value (used by the or-defaults in
bench_table.py and by the if-benchmark_contains test). -/
def JValue.truthy : JValue → Bool
  | .null => false
  | .bool b => b
  | .num q => q ≠ 0
  | .str s => s ≠ ""
  | .arr l => !l.isEmpty
  | .obj l => !l.isEmpty

/-- Dict field lookup: first binding wins (object keys are distinct). -/
def getField? (fields : List (String × JValue)) (k : String) : Option JValue :=
  (fields.find? (fun p => p.1 = k)).map (fun p => p.2)

/-- Digit character for a value below ten. -/
def digitChar (d : ℕ) : Char := Char.ofNat (48 + d)

/-- Exactly prec decimal digits of m (m is taken modulo 10 ^ prec),
most significant first, padded with zeros on the left. -/
def digitsFixed : ℕ → ℕ → List Char
  | 0, _ => []
  | n + 1, m => digitsFixed n (m / 10) ++ [digitChar (m % 10)]

theorem digitsFixed_length (n m : ℕ) : (digitsFixed n m).length = n := by
  induction n generalizing m with
  | zero => rfl
  | succ k ih => simp [digitsFixed, ih]

theorem digitsFixed_digits (n m : ℕ) :
    ∀ c ∈ digitsFixed n m, ('0' : Char) ≤ c ∧ c ≤ ('9' : Char) := by
  induction n generalizing m with
  | zero => intro c hc; simp [digitsFixed] at hc
  | succ k ih =>
    intro c hc
    simp only [digitsFixed, List.mem_append, List.mem_singleton] at hc
    rcases hc with h | h
    · exact ih _ c h
    · subst h
      have h10 : m % 10 < 10 := Nat.mod_lt _ (by norm_num)
      constructor
      · show ('0' : Char).val ≤ (digitChar (m % 10)).val
        simp only [digitChar, Char.ofNat]
        interval_cases h : m % 10 <;> decide
      · show (digitChar (m % 10)).val ≤ ('9' : Char).val
        simp only [digitChar, Char.ofNat]
        interval_cases h : m % 10 <;> decide

/-- Round a rational to the nearest integer, ties to even (the rounding
used by CPython when formatting). -/
def rndHalfEven (q : ℚ) : ℤ :=
  let f := ⌊q⌋
  let r := q - (f : ℚ)
  if r < 1/2 then f
  else if 1/2 < r then f + 1
  else if f % 2 = 0 then f else f + 1

/-- Ten to an integer power, as a rational. -/
def pow10 (e : ℤ) : ℚ :=
  if 0 ≤ e then ((10 ^ e.toNat : ℕ) : ℚ) else 1 / ((10 ^ (-e).toNat : ℕ) : ℚ)

/-- Fuel-driven floor of the base ten logarithm (fuel at least m
suffices); zero on zero. -/
def natLog10Aux : ℕ → ℕ → ℕ
  | 0, _ => 0
  | fuel + 1, m => if m < 10 then 0 else natLog10Aux fuel (m / 10) + 1

/-- Floor of the base ten logarithm of a natural number (zero on zero). -/
def natLog10 (n : ℕ) : ℕ := natLog10Aux n n

/-- The decimal exponent of a positive rational: the unique e with
10 ^ e ≤ a < 10 ^ (e + 1).  Junk on non-positive input. -/
def decExp (a : ℚ) : ℤ :=
  let e0 : ℤ := (natLog10 a.num.natAbs : ℤ) - (natLog10 a.den : ℤ)
  if a < pow10 e0 then e0 - 1 else e0

/-- Remove trailing zero characters. -/
def stripZerosRight (l : List Char) : List Char :=
  (l.reverse.dropWhile (fun c => c = '0')).reverse

/-- The exponent suffix of Python scientific notation: sign plus at
least two digits, as in e+06 or e-05. -/
def expSuffix (e : ℤ) : String :=
  let s := toString e.natAbs
  (if e < 0 then ("-") else ("+")) ++ (if s.length < 2 then ("0") ++ s else s)

/-- Models the Python format conversion with spec +.6g (used for the
absolute delta in bench_diff._fmt_delta). -/
def fmtGen (q : ℚ) : String :=
  if q = 0 then ("+0")
  else
    let sign := if q < 0 then ("-") else ("+")
    let a := |q|
    let e1 := decExp a
    let m0 := rndHalfEven (a * pow10 (5 - e1))
    let m : ℕ := if m0 = 10 ^ 6 then 10 ^ 5 else m0.toNat
    let e : ℤ := if m0 = 10 ^ 6 then e1 + 1 else e1
    let ds := digitsFixed 6 m
    if -4 ≤ e ∧ e < 6 then
      if 0 ≤ e then
        let ip := ds.take (e.toNat + 1)
        let fp := stripZerosRight (ds.drop (e.toNat + 1))
        sign ++ (String.mk ip ++ (if fp.isEmpty then ("") else (".") ++ String.mk fp))
      else
        let fp := stripZerosRight (List.replicate ((-e).toNat - 1) '0' ++ ds)
        sign ++ ("0." ++ String.mk fp)
    else
      let fp := stripZerosRight (ds.drop 1)
      sign ++ (String.mk (ds.take 1) ++ (if fp.isEmpty then ("") else (".") ++ String.mk fp)
        ++ "e" ++ expSuffix e)

/-- Models the Python fixed-point format conversions .Nf (plus flag off)
and +.Nf (plus flag on); prec is the digit count after the point and is
positive at every use site. -/
def fmtFixed (plus : Bool) (prec : ℕ) (q : ℚ) : String :=
  let n := rndHalfEven (q * ((10 ^ prec : ℕ) : ℚ))
  let sign := if q < 0 then ("-") else if plus then ("+") else ("")
  let a := n.natAbs
  sign ++ toString (a / 10 ^ prec) ++ "." ++ String.mk (digitsFixed prec (a % 10 ^ prec))

/-- Number of times p divides m (fuel-driven; fuel at least m suffices). -/
def facMultAux (p : ℕ) : ℕ → ℕ → ℕ
  | 0, _ => 0
  | fuel + 1, m => if m % p = 0 ∧ 0 < m then facMultAux p fuel (m / p) + 1 else 0

/-- Python textual rendering of a number.  JSON integers render without a
point.  A non-integer rational whose denominator divides a power of ten
renders as its exact decimal expansion, which agrees with repr on every
decimal literal small enough to be binary-exact or round-tripping; other
rationals fall back to a fraction rendering (never produced by JSON
input).  The int/float distinction of Python (3 versus 3.0) is collapsed
by the rational embedding. -/
def numRepr (q : ℚ) : String :=
  if q.den = 1 then toString q.num
  else
    let a2 := facMultAux 2 q.den q.den
    let a5 := facMultAux 5 q.den q.den
    if q.den = 2 ^ a2 * 5 ^ a5 then
      let k := max a2 a5
      let a := (q * ((10 ^ k : ℕ) : ℚ)).num.natAbs
      (if q < 0 then ("-") else ("")) ++ toString (a / 10 ^ k) ++ "." ++
        String.mk (digitsFixed k (a % 10 ^ k))
    else toString q.num ++ "/" ++ toString q.den

mutual

/-- Python repr of a JSON value (str quoting is modelled without escape
sequences, which never occur in the benchmark data). -/
def pyRepr : JValue → String
  | .null => "None"
  | .bool true => "True"
  | .bool false => "False"
  | .num q => numRepr q
  | .str s => "\x27" ++ s ++ "\x27"
  | .arr l => "[" ++ pyReprList l ++ "]"
  | .obj f => "\x7b" ++ pyReprFields f ++ "\x7d"

/-- Comma-separated reprs of the elements of a list. -/
def pyReprList : List JValue → String
  | [] => ""
  | [x] => pyRepr x
  | x :: y :: rest => pyRepr x ++ ", " ++ pyReprList (y :: rest)

/-- Comma-separated reprs of the fields of a dict. -/
def pyReprFields : List (String × JValue) → String
  | [] => ""
  | [(k, v)] => "\x27" ++ k ++ "\x27: " ++ pyRepr v
  | (k, v) :: y :: rest => "\x27" ++ k ++ "\x27: " ++ pyRepr v ++ ", " ++ pyReprFields (y :: rest)

end

/-- Python str of a JSON value: a string is itself, everything else
renders as its repr. -/
def pyStr : JValue → String
  | .str s => s
  | .null => "None"
  | .bool true => "True"
  | .bool false => "False"
  | .num q => numRepr q
  | .arr l => "[" ++ pyReprList l ++ "]"
  | .obj f => "\x7b" ++ pyReprFields f ++ "\x7d"

/-- Decimal digit test. -/
def isDigitCh (c : Char) : Bool := ('0' ≤ c) && (c ≤ '9')

/-- Value of a digit string. -/
def digitsVal (l : List Char) : ℕ := l.foldl (fun a c => a * 10 + (c.toNat - 48)) 0

/-- Models float applied to a string: optional sign, decimal digits with
optional fraction and exponent.  Whitespace, underscores, inf and nan
are not modelled (JMH result files never produce them). -/
def parseFloat? (s : String) : Option ℚ :=
  let cs := s.data
  let sgned : ℚ × List Char :=
    match cs with
    | '+' :: rest => (1, rest)
    | '-' :: rest => (-1, rest)
    | _ => (1, cs)
  let sgn := sgned.1
  let cs0 := sgned.2
  let ip := cs0.takeWhile isDigitCh
  let cs1 := cs0.dropWhile isDigitCh
  let fped : List Char × List Char :=
    match cs1 with
    | '.' :: rest => (rest.takeWhile isDigitCh, rest.dropWhile isDigitCh)
    | _ => ([], cs1)
  let fp := fped.1
  let cs2 := fped.2
  if ip.isEmpty && fp.isEmpty then none
  else
    let mant : ℚ := (digitsVal ip : ℚ) + (digitsVal fp : ℚ) / ((10 ^ fp.length : ℕ) : ℚ)
    match cs2 with
    | [] => some (sgn * mant)
    | e :: rest =>
      if e = 'e' ∨ e = 'E' then
        let esplit : Bool × List Char :=
          match rest with
          | '+' :: r => (false, r)
          | '-' :: r => (true, r)
          | _ => (false, rest)
        let ed := esplit.2.takeWhile isDigitCh
        if ed.isEmpty || !(esplit.2.dropWhile isDigitCh).isEmpty then none
        else
          some (sgn * mant *
            (if esplit.1 then 1 / ((10 ^ digitsVal ed : ℕ) : ℚ)
             else ((10 ^ digitsVal ed : ℕ) : ℚ)))
      else none

/-- Python float coercion of a JSON value, None on failure: models the
try float(v) except pattern of bench_diff._get_score and
_get_percentile.  Note float(bool) is 0 or 1. -/
def pyFloat? : JValue → Option ℚ
  | .num q => some q
  | .bool b => some (if b then 1 else 0)
  | .str s => parseFloat? s
  | _ => none

/-- A Python float value as seen by bench_diff._fmt: either NaN or a
finite value (modelled exactly as a rational). -/
inductive PyFloat where
  | nan
  | fin (q : ℚ)
  deriving DecidableEq

/-- Models bench_diff._fmt: None and NaN render as the unavailable
marker, magnitudes at least 100 with three decimals, smaller magnitudes
with six. -/
def fmt : Option PyFloat → String
  | none => "n/a"
  | some .nan => "n/a"
  | some (.fin v) => if 100 ≤ |v| then fmtFixed false 3 v else fmtFixed false 6 v

/-- fmt on an optional finite value (scores parsed from JSON are never
NaN in this model). -/
def fmtQ (v : Option ℚ) : String := fmt (v.map PyFloat.fin)

/-- Models bench_diff._fmt_delta: the signed absolute delta, and unless
the baseline is zero also the signed percentage with two decimals. -/
def fmt_delta (current baseline : ℚ) : String :=
  let delta := current - baseline
  if baseline = 0 then fmtGen delta
  else fmtGen delta ++ " (" ++ fmtFixed true 2 (delta / baseline * 100) ++ "%)"

example : fmtGen 5 = "+5" := by decide
example : fmtGen 0 = "+0" := by decide
example : fmtGen (-10) = "-10" := by decide
example : fmtGen (123456/1000) = "+123.456" := by decide
example : fmtGen (123456789/1000000000000) = "+0.000123457" := by decide
example : fmtGen 1234567 = "+1.23457e+06" := by decide
example : fmtFixed true 2 (-50) = "-50.00" := by decide
example : fmtFixed false 3 100 = "100.000" := by decide
example : fmtFixed false 6 (123456789/1000000000) = "0.123457" := by decide
example : fmtFixed false 3 (-4/10000) = "-0.000" := by decide
example : fmt_delta 5 0 = "+5" := by decide
example : fmt_delta 10 20 = "-10 (-50.00%)" := by decide
example : parseFloat? ("3.5") = some (7/2) := by decide
example : parseFloat? ("1e3") = some 1000 := by decide
example : parseFloat? ("-2.5e-1") = some (-1/4) := by decide
example : parseFloat? ("abc") = none := by decide
example : numRepr (5/2) = "2.5" := by decide

/-- Canonical identity of one benchmark entry: name plus the
ignore-filtered, name-sorted string parameters (bench_diff.EntryKey). -/
structure EntryKey where
  benchmark : String
  params : List (String × String)
  deriving DecidableEq

/-- Models EntryKey.pretty. -/
def EntryKey.pretty (k : EntryKey) : String :=
  if k.params.isEmpty then k.benchmark
  else
    k.benchmark ++ " (" ++
      String.intercalate (", ") (k.params.map (fun p => p.1 ++ "=" ++ p.2)) ++ ")"

/-- One assignment into a Python string-to-string dict: overwrite in
place if the key exists, append otherwise. -/
def strMapInsert (m : List (String × String)) (k v : String) : List (String × String) :=
  if m.any (fun p => p.1 = k) then m.map (fun p => if p.1 = k then (k, v) else p)
  else m ++ [(k, v)]

/-- Models bench_diff._as_str_map: a dict built by out[str(k)] = str(v)
over the items of an object (JSON object keys are already strings, so
the key coercion is the identity); non-dict input yields the empty map. -/
def as_str_map : JValue → List (String × String)
  | .obj fields => fields.foldl (fun m p => strMapInsert m p.1 (pyStr p.2)) []
  | _ => []

/-- Python string comparison: strict lexicographic order on the code
point sequences. -/
def strLt (a b : String) : Prop := List.Lex (· < ·) a.data b.data

instance : DecidableRel strLt := fun a b =>
  inferInstanceAs (Decidable (List.Lex (· < ·) a.data b.data))

instance : IsTrans String strLt :=
  ⟨fun a b c h1 h2 => trans_of (List.Lex (· < · : Char → Char → Prop)) h1 h2⟩

instance : IsIrrefl String strLt :=
  ⟨fun a h => irrefl_of (List.Lex (· < · : Char → Char → Prop)) a.data h⟩

instance : IsAsymm String strLt :=
  ⟨fun a b h1 h2 => asymm_of (List.Lex (· < · : Char → Char → Prop)) h1 h2⟩

instance : IsTrichotomous String strLt := by
  refine ⟨fun a b => ?_⟩
  rcases trichotomous_of (List.Lex (· < · : Char → Char → Prop)) a.data b.data with h | h | h
  · exact Or.inl h
  · exact Or.inr (Or.inl (String.ext h))
  · exact Or.inr (Or.inr h)

/-- Python string less-or-equal. -/
def strLe (a b : String) : Prop := strLt a b ∨ a = b

instance : DecidableRel strLe := fun a b =>
  inferInstanceAs (Decidable (strLt a b ∨ a = b))

instance : IsTotal String strLe := by
  refine ⟨fun a b => ?_⟩
  rcases trichotomous_of strLt a b with h | h | h
  · exact Or.inl (Or.inl h)
  · exact Or.inl (Or.inr h)
  · exact Or.inr (Or.inl h)

instance : IsTrans String strLe := by
  refine ⟨fun a b c h1 h2 => ?_⟩
  rcases h1 with h1 | rfl
  · rcases h2 with h2 | rfl
    · exact Or.inl (trans_of strLt h1 h2)
    · exact Or.inl h1
  · exact h2

instance : IsAntisymm String strLe := by
  refine ⟨fun a b h1 h2 => ?_⟩
  rcases h1 with h1 | rfl
  · rcases h2 with h2 | rfl
    · exact absurd h2 (asymm_of strLt h1)
    · rfl
  · rfl

/-- Python comparison of two string pairs (tuple comparison): strict
lexicographic order. -/
def pairLt (a b : String × String) : Prop :=
  strLt a.1 b.1 ∨ (a.1 = b.1 ∧ strLt a.2 b.2)

instance : DecidableRel pairLt := fun a b =>
  inferInstanceAs (Decidable (strLt a.1 b.1 ∨ (a.1 = b.1 ∧ strLt a.2 b.2)))

instance : IsTrans (String × String) pairLt := by
  refine ⟨fun a b c h1 h2 => ?_⟩
  rcases h1 with h1 | ⟨e1, h1⟩
  · rcases h2 with h2 | ⟨e2, h2⟩
    · exact Or.inl (trans_of strLt h1 h2)
    · exact Or.inl (e2 ▸ h1)
  · rcases h2 with h2 | ⟨e2, h2⟩
    · exact Or.inl (e1 ▸ h2)
    · exact Or.inr ⟨e1.trans e2, trans_of strLt h1 h2⟩

instance : IsIrrefl (String × String) pairLt := by
  refine ⟨fun a h => ?_⟩
  rcases h with h | ⟨_, h⟩ <;> exact irrefl_of strLt _ h

instance : IsAsymm (String × String) pairLt := ⟨fun a b h1 h2 => by
  rcases h1 with h1 | ⟨e1, h1⟩ <;> rcases h2 with h2 | ⟨e2, h2⟩
  · exact asymm_of strLt h1 h2
  · exact irrefl_of strLt _ (e2 ▸ h1)
  · exact irrefl_of strLt _ (e1 ▸ h2)
  · exact asymm_of strLt h1 h2⟩

instance : IsTrichotomous (String × String) pairLt := by
  refine ⟨fun a b => ?_⟩
  rcases trichotomous_of strLt a.1 b.1 with h | h | h
  · exact Or.inl (Or.inl h)
  · rcases trichotomous_of strLt a.2 b.2 with h2 | h2 | h2
    · exact Or.inl (Or.inr ⟨h, h2⟩)
    · exact Or.inr (Or.inl (Prod.ext h h2))
    · exact Or.inr (Or.inr (Or.inr ⟨h.symm, h2⟩))
  · exact Or.inr (Or.inr (Or.inl h))

instance : IsStrictTotalOrder (String × String) pairLt where
  trichotomous := trichotomous_of pairLt

/-- Order on parameter pairs by name only: the sort key kv[0] used in
bench_diff._key_for_entry. -/
def nameLE (a b : String × String) : Prop := strLe a.1 b.1

instance : DecidableRel nameLE := fun a b => inferInstanceAs (Decidable (strLe a.1 b.1))

instance : IsTotal (String × String) nameLE := ⟨fun a b => total_of strLe a.1 b.1⟩

instance : IsTrans (String × String) nameLE := ⟨fun _ _ _ h1 h2 => trans_of strLe h1 h2⟩

/-- Models bench_diff._key_for_entry on the fields of an entry dict:
stringify the benchmark name, stringify the params, drop ignored names,
sort by name. -/
def key_for_entry (fields : List (String × JValue)) (ignore_params : List String) : EntryKey :=
  let benchmark := pyStr ((getField? fields ("benchmark")).getD (.str ("")))
  let params := (as_str_map ((getField? fields ("params")).getD (.obj []))).filter
    (fun p => !ignore_params.contains p.1)
  { benchmark := benchmark, params := List.insertionSort nameLE params }

/-- The fields of an entry known to be a dict (the index below stores
dicts only). -/
def entryFields : JValue → List (String × JValue)
  | .obj f => f
  | _ => []

/-- Models bench_diff._get_metric: the primaryMetric dict, or empty when
absent or not a dict. -/
def get_metric (fields : List (String × JValue)) : List (String × JValue) :=
  match getField? fields ("primaryMetric") with
  | some (.obj m) => m
  | _ => []

/-- Models bench_diff._get_score: None when absent or null, otherwise
the float coercion with failure collapsed to None. -/
def get_score (metric : List (String × JValue)) : Option ℚ :=
  match getField? metric ("score") with
  | none => none
  | some .null => none
  | some v => pyFloat? v

/-- Models bench_diff._get_unit: str of scoreUnit, empty for absent or
null. -/
def get_unit (metric : List (String × JValue)) : String :=
  match getField? metric ("scoreUnit") with
  | none => ""
  | some .null => ""
  | some v => pyStr v

/-- Models bench_diff._get_percentile: a value from the
scorePercentiles dict coerced to float, None at every failure point. -/
def get_percentile (metric : List (String × JValue)) (p : String) : Option ℚ :=
  match getField? metric ("scorePercentiles") with
  | some (.obj ps) =>
    match getField? ps p with
    | none => none
    | some .null => none
    | some v => pyFloat? v
  | _ => none

/-- One assignment into the index dict keyed by EntryKey. -/
def insertAssoc (m : List (EntryKey × JValue)) (k : EntryKey) (v : JValue) :
    List (EntryKey × JValue) :=
  if m.any (fun p => p.1 = k) then m.map (fun p => if p.1 = k then (k, v) else p)
  else m ++ [(k, v)]

/-- Index lookup (keys are distinct by construction). -/
def lookupIdx (m : List (EntryKey × JValue)) (k : EntryKey) : Option JValue :=
  (m.find? (fun p => p.1 = k)).map (fun p => p.2)

/-- Key iteration order of the index dict (insertion order). -/
def keysOf (m : List (EntryKey × JValue)) : List EntryKey := m.map (fun p => p.1)

/-- One iteration of the loop in bench_diff._index: skip a non-dict
entry, key a dict by its canonical key, drop an empty benchmark name,
assign into the dict otherwise. -/
def indexStep (ignore_params : List String) (out : List (EntryKey × JValue)) (e : JValue) :
    List (EntryKey × JValue) :=
  match e with
  | .obj fields =>
    let k := key_for_entry fields ignore_params
    if k.benchmark = "" then out else insertAssoc out k e
  | _ => out

/-- Models bench_diff._index: skip non-dict entries, key each dict by
its canonical key, drop empty benchmark names, last write wins. -/
def index (entries : List JValue) (ignore_params : List String) : List (EntryKey × JValue) :=
  entries.foldl (indexStep ignore_params) []

/-- Models bench_diff._matches_benchmark: empty or absent filter matches
everything, otherwise literal substring containment. -/
def matchesBenchmark (key : EntryKey) (substring : Option String) : Bool :=
  match substring with
  | none => true
  | some s => if s = "" then true else decide (List.IsInfix s.data key.benchmark.data)

/-- The Python comparison of the sort keys (k.benchmark, k.params):
tuple comparison, where the params tuples compare as lexicographic
lists of pairs. -/
def keyLt (a b : EntryKey) : Prop :=
  strLt a.benchmark b.benchmark ∨
    (a.benchmark = b.benchmark ∧ List.Lex pairLt a.params b.params)

instance : DecidableRel keyLt := fun a b =>
  inferInstanceAs (Decidable (strLt a.benchmark b.benchmark ∨
    (a.benchmark = b.benchmark ∧ List.Lex pairLt a.params b.params)))

instance : IsTrans EntryKey keyLt := by
  refine ⟨fun a b c h1 h2 => ?_⟩
  rcases h1 with h1 | ⟨e1, h1⟩
  · rcases h2 with h2 | ⟨e2, h2⟩
    · exact Or.inl (trans_of strLt h1 h2)
    · exact Or.inl (e2 ▸ h1)
  · rcases h2 with h2 | ⟨e2, h2⟩
    · exact Or.inl (e1 ▸ h2)
    · exact Or.inr ⟨e1.trans e2, trans_of (List.Lex pairLt) h1 h2⟩

instance : IsAsymm EntryKey keyLt := ⟨fun a b h1 h2 => by
  rcases h1 with h1 | ⟨e1, h1⟩ <;> rcases h2 with h2 | ⟨e2, h2⟩
  · exact asymm_of strLt h1 h2
  · exact irrefl_of strLt _ (e2 ▸ h1)
  · exact irrefl_of strLt _ (e1 ▸ h2)
  · exact asymm_of (List.Lex pairLt) h1 h2⟩

instance : IsTrichotomous EntryKey keyLt := by
  refine ⟨fun a b => ?_⟩
  rcases trichotomous_of strLt a.benchmark b.benchmark with h | h | h
  · exact Or.inl (Or.inl h)
  · rcases trichotomous_of (List.Lex pairLt) a.params b.params with h2 | h2 | h2
    · exact Or.inl (Or.inr ⟨h, h2⟩)
    · refine Or.inr (Or.inl ?_)
      cases a; cases b
      simpa using And.intro h h2
    · exact Or.inr (Or.inr (Or.inr ⟨h.symm, h2⟩))
  · exact Or.inr (Or.inr (Or.inl h))

/-- The ascending order used for all three output lists of the diff. -/
def keyLE (a b : EntryKey) : Prop := keyLt a b ∨ a = b

instance : DecidableRel keyLE := fun a b =>
  inferInstanceAs (Decidable (keyLt a b ∨ a = b))

instance : IsTotal EntryKey keyLE := by
  refine ⟨fun a b => ?_⟩
  rcases trichotomous_of keyLt a b with h | h | h
  · exact Or.inl (Or.inl h)
  · exact Or.inl (Or.inr h)
  · exact Or.inr (Or.inl h)

instance : IsTrans EntryKey keyLE := by
  refine ⟨fun a b c h1 h2 => ?_⟩
  rcases h1 with h1 | rfl
  · rcases h2 with h2 | rfl
    · exact Or.inl (trans_of keyLt h1 h2)
    · exact Or.inl h1
  · exact h2

instance : IsAntisymm EntryKey keyLE := by
  refine ⟨fun a b h1 h2 => ?_⟩
  rcases h1 with h1 | rfl
  · rcases h2 with h2 | rfl
    · exact absurd h2 (asymm_of keyLt h1)
    · rfl
  · rfl

/-- The sorted matched keys of bench_diff.compare (the keys list). -/
def matchedKeys (ces bes : List JValue) (sub : Option String) (ig : List String) :
    List EntryKey :=
  List.insertionSort keyLE ((keysOf (index ces ig)).filter
    (fun k => (lookupIdx (index bes ig) k).isSome && matchesBenchmark k sub))

/-- The sorted current-only keys (missing_in_baseline). -/
def currentOnlyKeys (ces bes : List JValue) (sub : Option String) (ig : List String) :
    List EntryKey :=
  List.insertionSort keyLE ((keysOf (index ces ig)).filter
    (fun k => (lookupIdx (index bes ig) k).isNone && matchesBenchmark k sub))

/-- The sorted baseline-only keys (missing_in_current). -/
def baselineOnlyKeys (ces bes : List JValue) (sub : Option String) (ig : List String) :
    List EntryKey :=
  List.insertionSort keyLE ((keysOf (index bes ig)).filter
    (fun k => (lookupIdx (index ces ig) k).isNone && matchesBenchmark k sub))

/-- Unit selection on a matched key: the current unit unless it is
empty, then the baseline unit (the or-expression in compare). -/
def pickUnit (cm bm : List (String × JValue)) : String :=
  let u := get_unit cm
  if u = "" then get_unit bm else u

/-- One metric comparison line: the label, then baseline and current
values, the unit, and the delta (the f-string body used by compare for
the mean and percentile lines). -/
def cmpLine (label : String) (b c : ℚ) (unit : String) : String :=
  label ++ (fmtQ (some b) ++ " -> " ++ fmtQ (some c) ++ " " ++ unit ++
    "   Δ " ++ fmt_delta c b)

/-- The mean line of one matched key: a comparison when both scores are
present, the unavailable marker otherwise. -/
def meanLines (c_score b_score : Option ℚ) (unit : String) : List String :=
  match c_score, b_score with
  | some cs, some bs => [cmpLine ("  mean:   ") bs cs unit]
  | _, _ => ["  mean:   n/a"]

/-- One percentile line of a matched key: present exactly when both
sides carry the value (the two-sided is-not-None test in compare). -/
def pctLines (label : String) (pb pc : Option ℚ) (unit : String) : List String :=
  match pb, pc with
  | some b, some c => [cmpLine label b c unit]
  | _, _ => []

/-- The block of lines compare prints for one matched key: the pretty
key, the mean line (unavailable marker when either score is missing),
one line per percentile available on both sides, and a blank line. -/
def entryLines (k : EntryKey) (c_entry b_entry : JValue) : List String :=
  let c_metric := get_metric (entryFields c_entry)
  let b_metric := get_metric (entryFields b_entry)
  let unit := pickUnit c_metric b_metric
  [k.pretty] ++
  meanLines (get_score c_metric) (get_score b_metric) unit ++
  pctLines ("  p50:    ") (get_percentile b_metric ("50.0"))
    (get_percentile c_metric ("50.0")) unit ++
  pctLines ("  p99:    ") (get_percentile b_metric ("99.0"))
    (get_percentile c_metric ("99.0")) unit ++
  pctLines ("  p99.9:  ") (get_percentile b_metric ("99.9"))
    (get_percentile c_metric ("99.9")) unit ++
  [""]

/-- String s starts with prefix p (Python startswith, used to state
which metric lines appear in an output block). -/
def strStartsWith (p s : String) : Prop := s.data.take p.data.length = p.data

instance : ∀ p s, Decidable (strStartsWith p s) := fun p s =>
  inferInstanceAs (Decidable (s.data.take p.data.length = p.data))

theorem strStartsWith_append (p l t : String) (h : p.data.length ≤ l.data.length) :
    strStartsWith p (l ++ t) ↔ strStartsWith p l := by
  unfold strStartsWith
  rw [show (l ++ t).data = l.data ++ t.data from rfl, List.take_append_of_le_length h]

theorem strStartsWith_cmpLine (p label : String) (b c : ℚ) (u : String)
    (h : p.data.length ≤ label.data.length) :
    strStartsWith p (cmpLine label b c u) ↔ strStartsWith p label :=
  strStartsWith_append p label _ h

/-- Some line of the list starts with the given label. -/
def hasLineWith (p : String) (lines : List String) : Prop :=
  ∃ l ∈ lines, strStartsWith p l

/-- The header lines compare prints before any comparison. -/
def diffHeader (cur base : String) (sub : Option String) (ig : List String) : List String :=
  ["Current:  " ++ cur, "Baseline: " ++ base] ++
  (match sub with
   | some s =>
     if s = "" then [] else ["Filter: benchmark contains \x27" ++ s ++ "\x27"]
   | none => []) ++
  (if ig.isEmpty then [] else ["Ignoring params: " ++ String.intercalate (", ") ig]) ++
  [""]

/-- The termination code of bench_diff.compare on two arrays: one when
no key matched after filtering, zero otherwise. -/
def diffExit (ces bes : List JValue) (sub : Option String) (ig : List String) : ℕ :=
  if matchedKeys ces bes sub ig = [] then 1 else 0

/-- Everything bench_diff.compare prints on two arrays. -/
def diffLines (cur base : String) (ces bes : List JValue) (sub : Option String)
    (ig : List String) : List String :=
  let cidx := index ces ig
  let bidx := index bes ig
  let keys := matchedKeys ces bes sub ig
  let missing_in_baseline := currentOnlyKeys ces bes sub ig
  let missing_in_current := baselineOnlyKeys ces bes sub ig
  diffHeader cur base sub ig ++
  (if keys.isEmpty then
    ["No matching benchmark+params entries found between current and baseline."] ++
    (if missing_in_baseline.isEmpty then []
     else ["Current-only entries: " ++ toString missing_in_baseline.length]) ++
    (if missing_in_current.isEmpty then []
     else ["Baseline-only entries: " ++ toString missing_in_current.length])
  else
    (keys.map (fun k =>
      entryLines k ((lookupIdx cidx k).getD .null) ((lookupIdx bidx k).getD .null))).flatten ++
    (if missing_in_baseline.isEmpty then []
     else ["Current-only entries (no baseline match): " ++ toString missing_in_baseline.length]) ++
    (if missing_in_current.isEmpty then []
     else ["Baseline-only entries (not in current): " ++ toString missing_in_current.length]))

/-- Models bench_diff.compare after the two json loads: SystemExit on a
non-array input, otherwise the printed lines and the return code. -/
def compareRun (cur base : String) (current baseline : JValue) (sub : Option String)
    (ig : List String) : Except String (ℕ × List String) :=
  match current, baseline with
  | .arr ces, .arr bes => .ok (diffExit ces bes sub ig, diffLines cur base ces bes sub ig)
  | _, _ => .error ("Both files must be JMH JSON arrays")

/-- A concrete Get entry as in the end-to-end scenario of the spec. -/
def entGet (score p50 : ℚ) : JValue :=
  .obj [("benchmark", .str ("Get")), ("params", .obj []),
    ("primaryMetric", .obj [("score", .num score), ("scoreUnit", .str ("us/op")),
      ("scorePercentiles", .obj [("50.0", .num p50), ("99.0", .num 15), ("99.9", .num 20)])])]

example :
    compareRun ("cur.json") "base.json" (.arr [entGet 10 9]) (.arr [entGet 20 18]) none [] =
      .ok (0, ["Current:  cur.json", "Baseline: base.json", "", "Get",
        "  mean:   20.000000 -> 10.000000 us/op   Δ -10 (-50.00%)",
        "  p50:    18.000000 -> 9.000000 us/op   Δ -9 (-50.00%)",
        "  p99:    15.000000 -> 15.000000 us/op   Δ +0 (+0.00%)",
        "  p99.9:  20.000000 -> 20.000000 us/op   Δ +0 (+0.00%)", ""]) := rfl

/-- Models bench_table._fmt_num: empty for None, three decimals when
float conversion succeeds, otherwise the str of the value. -/
def fmt_num : JValue → String
  | .null => ""
  | v =>
    match pyFloat? v with
    | some q => fmtFixed false 3 q
    | none => pyStr v

/-- One table row as built in bench_table.main (the dict with keys full,
Impl, Mean, p50, p99, p99.9, Unit). -/
structure Row where
  full : JValue
  impl : JValue
  mean : JValue
  p50 : JValue
  p99 : JValue
  p999 : JValue
  unit : JValue

/-- Python iteration over the parsed JSON document (for entry in data):
arrays yield elements, dicts yield their keys, strings yield one-char
strings, everything else raises TypeError. -/
def pyIter : JValue → Except String (List JValue)
  | .arr l => .ok l
  | .obj f => .ok (f.map (fun kv => .str kv.1))
  | .str s => .ok (s.data.map (fun c => .str (String.mk [c])))
  | .null => .error ("TypeError: NoneType object is not iterable")
  | .bool _ => .error ("TypeError: bool object is not iterable")
  | .num _ => .error ("TypeError: number is not iterable")

/-- The value of (x or empty-dict) followed by attribute access on it:
a falsy value becomes the empty dict, a truthy dict is itself, and a
truthy non-dict raises AttributeError at the .get call. -/
def orEmptyObj (v : JValue) : Except String (List (String × JValue)) :=
  if v.truthy then
    match v with
    | .obj pf => Except.ok pf
    | _ => Except.error ("AttributeError: object has no attribute get")
  else Except.ok []

/-- The row construction of bench_table.main for one entry, with the
AttributeError raised on a non-dict entry (or truthy non-dict params,
primaryMetric or scorePercentiles) modelled as an error. -/
def buildRow (entry : JValue) : Except String Row :=
  match entry with
  | .obj f => do
    let bench := (getField? f ("benchmark")).getD (.str (""))
    let params ← orEmptyObj ((getField? f ("params")).getD .null)
    let impl := (getField? params ("implementation")).getD (.str (""))
    let metric ← orEmptyObj ((getField? f ("primaryMetric")).getD .null)
    let pct ← orEmptyObj ((getField? metric ("scorePercentiles")).getD .null)
    Except.ok
      { full := bench
        impl := impl
        mean := (getField? metric ("score")).getD .null
        p50 := (getField? pct ("50.0")).getD .null
        p99 := (getField? pct ("99.0")).getD .null
        p999 := (getField? pct ("99.9")).getD .null
        unit := (getField? metric ("scoreUnit")).getD (.str ("")) }
  | _ => Except.error ("AttributeError: entry object has no attribute get")

/-- The row list of bench_table.main. -/
def buildRows (data : JValue) : Except String (List Row) := do
  let items ← pyIter data
  items.mapM buildRow

/-- The sort key (r.full, r.Impl) when both components are strings. -/
def rowKeyStr? (r : Row) : Option (String × String) :=
  match r.full, r.impl with
  | .str f, .str i => some (f, i)
  | _, _ => none

/-- The sort key of a row; the fallback for non-string components is
never used behind the guard in sortRows. -/
def rowKey (r : Row) : String × String := (rowKeyStr? r).getD ("", "")

/-- Row order for rows.sort(key=lambda r: (r.full, r.Impl)): Python
tuple less-or-equal on the keys. -/
def rowLe (a b : Row) : Prop := pairLt (rowKey a) (rowKey b) ∨ rowKey a = rowKey b

instance : DecidableRel rowLe := fun a b =>
  inferInstanceAs (Decidable (pairLt (rowKey a) (rowKey b) ∨ rowKey a = rowKey b))

instance : IsTotal Row rowLe := by
  refine ⟨fun a b => ?_⟩
  rcases trichotomous_of pairLt (rowKey a) (rowKey b) with h | h | h
  · exact Or.inl (Or.inl h)
  · exact Or.inl (Or.inr h)
  · exact Or.inr (Or.inl h)

instance : IsTrans Row rowLe := by
  refine ⟨fun a b c h1 h2 => ?_⟩
  rcases h1 with h1 | e1
  · rcases h2 with h2 | e2
    · exact Or.inl (trans_of pairLt h1 h2)
    · exact Or.inl (e2 ▸ h1)
  · rcases h2 with h2 | e2
    · exact Or.inl (e1 ▸ h2)
    · exact Or.inr (e1.trans e2)

/-- Models rows.sort in bench_table.main, a stable sort by the pair
(benchmark identifier, implementation label).  The model requires both
key components to be strings, which is the case for every well-formed
input; CPython additionally orders rows whose keys are uniformly
numeric and raises TypeError lazily inside the sort for mixed key
types.  Neither behaviour is claimed by the spec and neither is
reachable from well-formed result files, so the model conservatively
rejects non-string keys. -/
def sortRows (rows : List Row) : Except String (List Row) :=
  if rows.all (fun r => (rowKeyStr? r).isSome) then Except.ok (List.insertionSort rowLe rows)
  else Except.error ("TypeError: unorderable sort keys")

/-- Equality of group keys in itertools.groupby: the keys reaching the
groupby in bench_table.main are strings (sortRows guarantees it), where
Python equality is string equality. -/
def fullEqB (a b : JValue) : Bool :=
  match a, b with
  | .str x, .str y => x = y
  | _, _ => false

/-- Models itertools.groupby over the sorted rows keyed by r.full:
maximal consecutive runs with equal key, paired with the key of the
first row of the run. -/
def groupRuns : List Row → List (JValue × List Row)
  | [] => []
  | r :: rs =>
    match groupRuns rs with
    | [] => [(r.full, [r])]
    | (k, g) :: rest =>
      if fullEqB r.full k then (r.full, r :: g) :: rest
      else (r.full, [r]) :: (k, g) :: rest

/-- The column header labels of bench_table._render_group. -/
def colNames : List String := ["Impl", "Mean", "p50", "p99", "p99.9", "Unit"]

/-- The numeric columns of bench_table._render_group. -/
def numCols : List String := ["Mean", "p50", "p99", "p99.9"]

/-- row.get(col) for the fixed column set. -/
def colVal (r : Row) (c : String) : JValue :=
  if c = "Impl" then r.impl
  else if c = "Mean" then r.mean
  else if c = "p50" then r.p50
  else if c = "p99" then r.p99
  else if c = "p99.9" then r.p999
  else if c = "Unit" then r.unit
  else .null

/-- Models the cell helper of _render_group: numeric columns through
_fmt_num, other columns through str(v or empty string). -/
def cell (c : String) (r : Row) : String :=
  if numCols.contains c then fmt_num (colVal r c)
  else
    let v := colVal r c
    if v.truthy then pyStr v else ("")

/-- Python str.ljust: pad with spaces on the right up to the width. -/
def ljustStr (s : String) (w : ℕ) : String :=
  s ++ String.mk (List.replicate (w - s.length) ' ')

/-- Python str.rjust: pad with spaces on the left up to the width. -/
def rjustStr (s : String) (w : ℕ) : String :=
  String.mk (List.replicate (w - s.length) ' ') ++ s

/-- The per-column display width of _render_group: the maximum of the
header length and every cell length in the group. -/
def colWidth (group : List Row) (c : String) : ℕ :=
  max c.length ((group.map (fun r => (cell c r).length)).foldl max 0)

/-- The text block _render_group builds for one group: title line,
header row, dashed separator, one row per entry; numeric columns
right-aligned, other columns left-aligned. -/
def renderGroupStr (full : String) (group : List Row) : String :=
  String.intercalate ("\n") (
    [full,
     "  " ++ String.intercalate ("  ")
       (colNames.map (fun c => ljustStr c (colWidth group c))),
     "  " ++ String.intercalate ("  ")
       (colNames.map (fun c => String.mk (List.replicate (colWidth group c) '-')))] ++
    group.map (fun r => "  " ++ String.intercalate ("  ") (colNames.map (fun c =>
      let s := cell c r
      if numCols.contains c then rjustStr s (colWidth group c)
      else ljustStr s (colWidth group c)))))

/-- Wraps the group rendering with the TypeError that str.join raises
when the group key placed on the title line is not a string. -/
def renderGroup (full : JValue) (group : List Row) : Except String String :=
  match full with
  | .str s => .ok (renderGroupStr s group)
  | _ => .error ("TypeError: sequence item 0: expected str instance")

/-- Python str.rstrip with no argument: drop trailing whitespace. -/
def rstripStr (s : String) : String :=
  String.mk (s.data.reverse.dropWhile (fun c => c.isWhitespace)).reverse

/-- The grouped rows of bench_table.main just before rendering. -/
def tableGroups (data : JValue) : Except String (List (JValue × List Row)) := do
  let rows ← buildRows data
  let sorted ← sortRows rows
  Except.ok (groupRuns sorted)

/-- Models bench_table.main after json.loads: build rows, sort, group,
render every group followed by a blank line, join and right-strip.  An
ok result is an exit code of zero; an error is an uncaught exception
(non-zero termination). -/
def tableRun (data : JValue) : Except String String := do
  let rows ← buildRows data
  let sorted ← sortRows rows
  let texts ← (groupRuns sorted).mapM (fun g => renderGroup g.1 g.2)
  Except.ok (rstripStr (String.intercalate ("\n") ((texts.map (fun t => [t, ""])).flatten)))

/-- Entry with a benchmark name and an implementation parameter only. -/
def entBI (b i : String) : JValue :=
  .obj [("benchmark", .str b), ("params", .obj [("implementation", .str i)])]

/-- The row entBI builds. -/
def rowBI (b i : String) : Row :=
  { full := .str b, impl := .str i, mean := .null, p50 := .null, p99 := .null,
    p999 := .null, unit := .str ("") }

example :
    tableGroups (.arr [entBI ("A") "x", entBI ("A") "y", entBI ("B") "z"]) =
      .ok [(.str ("A"), [rowBI ("A") "x", rowBI ("A") "y"]), (.str ("B"), [rowBI ("B") "z"])] := rfl

example : tableRun (.arr [.num 1]) = .error ("AttributeError: entry object has no attribute get") := rfl

example : tableRun (.obj []) = .ok ("") := rfl

example : ∃ out, tableRun (.arr [entBI ("A") "x"]) = .ok out := ⟨_, rfl⟩

/-- The output of the signed fixed-point conversion: an explicit sign,
an integer part, a point, and exactly prec digits. -/
def signedFixedStr (prec : ℕ) (s : String) : Prop :=
  ∃ (sgn : String) (ip : ℕ) (ds : List Char),
    (sgn = "+" ∨ sgn = "-") ∧ ds.length = prec ∧
    (∀ c ∈ ds, ('0' : Char) ≤ c ∧ c ≤ ('9' : Char)) ∧
    s = sgn ++ toString ip ++ "." ++ String.mk ds

/-- The output of any fixed-point conversion ends with a point and
exactly prec digits. -/
def fixedDecimalsStr (prec : ℕ) (s : String) : Prop :=
  ∃ (pre : String) (ds : List Char),
    ds.length = prec ∧ (∀ c ∈ ds, ('0' : Char) ≤ c ∧ c ≤ ('9' : Char)) ∧
    s = pre ++ "." ++ String.mk ds

theorem fmtFixed_eq (plus : Bool) (prec : ℕ) (q : ℚ) :
    fmtFixed plus prec q =
      (if q < 0 then ("-") else if plus then ("+") else ("")) ++
        toString ((rndHalfEven (q * ((10 ^ prec : ℕ) : ℚ))).natAbs / 10 ^ prec) ++ "." ++
        String.mk (digitsFixed prec
          ((rndHalfEven (q * ((10 ^ prec : ℕ) : ℚ))).natAbs % 10 ^ prec)) := rfl

theorem fmtFixed_signed (prec : ℕ) (q : ℚ) : signedFixedStr prec (fmtFixed true prec q) := by
  by_cases h : q < 0
  · rw [fmtFixed_eq, if_pos h]
    exact ⟨"-", _, _, Or.inr rfl, digitsFixed_length _ _, digitsFixed_digits _ _, rfl⟩
  · rw [fmtFixed_eq, if_neg h]
    exact ⟨"+", _, _, Or.inl rfl, digitsFixed_length _ _, digitsFixed_digits _ _, rfl⟩

theorem fmtFixed_decimals (plus : Bool) (prec : ℕ) (q : ℚ) :
    fixedDecimalsStr prec (fmtFixed plus prec q) :=
  ⟨_, _, digitsFixed_length _ _, digitsFixed_digits _ _, rfl⟩

theorem fmtGen_sign (q : ℚ) :
    ∃ r : String, fmtGen q = (if q < 0 then ("-") else ("+")) ++ r := by
  unfold fmtGen
  by_cases h0 : q = 0
  · subst h0
    rw [if_pos rfl, if_neg (lt_irrefl (0 : ℚ))]
    exact ⟨"0", rfl⟩
  · rw [if_neg h0]
    dsimp only
    repeat' split
    all_goals exact ⟨_, rfl⟩

/-- C2 (confirmed): for a matched metric slot with both values present,
the reported delta is the +.6g rendering of current minus baseline with
an explicit sign; a zero baseline yields only the absolute delta and no
percentage, a non-zero baseline appends the percentage
(delta / baseline) * 100 rendered with an explicit sign and exactly two
decimal digits; in particular baseline 0 and current 5 display +5. -/
theorem c2_delta_formatting (current baseline : ℚ) :
    (baseline = 0 → fmt_delta current baseline = fmtGen (current - baseline)) ∧
    (baseline ≠ 0 → fmt_delta current baseline =
        fmtGen (current - baseline) ++ " (" ++
          fmtFixed true 2 ((current - baseline) / baseline * 100) ++ "%)") ∧
    (∃ r, fmtGen (current - baseline) =
        (if current - baseline < 0 then ("-") else ("+")) ++ r) ∧
    signedFixedStr 2 (fmtFixed true 2 ((current - baseline) / baseline * 100)) ∧
    fmt_delta 5 0 = "+5" := by
  refine ⟨fun h => ?_, fun h => ?_, fmtGen_sign _, fmtFixed_signed _ _, by decide⟩
  · simp [fmt_delta, h]
  · simp [fmt_delta, h]

theorem c2_delta_formatting_witness :
    fmt_delta 5 0 = fmtGen (5 - 0) ∧
    fmt_delta 10 20 = fmtGen (10 - 20) ++ " (" ++
      fmtFixed true 2 ((10 - 20) / 20 * 100) ++ "%)" :=
  ⟨(c2_delta_formatting 5 0).1 rfl,
   (c2_delta_formatting 10 20).2.1 (by norm_num)⟩

/-- C3 (confirmed): the diff value formatter renders None and NaN as the
unavailable marker, magnitudes of at least 100 with exactly three
decimal digits, smaller magnitudes with exactly six; 100 renders as
100.000 and 0.123456789 as 0.123457. -/
theorem c3_fmt_rendering :
    (∀ v : Option PyFloat, v = none ∨ v = some .nan → fmt v = "n/a") ∧
    (∀ q : ℚ, 100 ≤ |q| → fmt (some (.fin q)) = fmtFixed false 3 q ∧
      fixedDecimalsStr 3 (fmt (some (.fin q)))) ∧
    (∀ q : ℚ, |q| < 100 → fmt (some (.fin q)) = fmtFixed false 6 q ∧
      fixedDecimalsStr 6 (fmt (some (.fin q)))) ∧
    fmt (some (.fin 100)) = "100.000" ∧
    fmt (some (.fin (123456789 / 1000000000))) = "0.123457" := by
  refine ⟨?_, ?_, ?_, by decide, by decide⟩
  · rintro v (rfl | rfl) <;> rfl
  · intro q h
    have he : fmt (some (.fin q)) = fmtFixed false 3 q := by
      simp only [fmt, if_pos h]
    exact ⟨he, he ▸ fmtFixed_decimals false 3 q⟩
  · intro q h
    have he : fmt (some (.fin q)) = fmtFixed false 6 q := by
      simp only [fmt, if_neg (not_le.mpr h)]
    exact ⟨he, he ▸ fmtFixed_decimals false 6 q⟩

theorem c3_fmt_rendering_witness :
    fmt none = "n/a" ∧
    fmt (some (.fin 250)) = fmtFixed false 3 250 ∧
    fmt (some (.fin 1)) = fmtFixed false 6 1 :=
  ⟨c3_fmt_rendering.1 none (Or.inl rfl),
   (c3_fmt_rendering.2.1 250 (by norm_num)).1,
   (c3_fmt_rendering.2.2.1 1 (by norm_num)).1⟩

theorem hasLineWith_append (p : String) (l1 l2 : List String) :
    hasLineWith p (l1 ++ l2) ↔ hasLineWith p l1 ∨ hasLineWith p l2 := by
  simp only [hasLineWith, List.mem_append]
  constructor
  · rintro ⟨l, h | h, hp⟩
    · exact Or.inl ⟨l, h, hp⟩
    · exact Or.inr ⟨l, h, hp⟩
  · rintro (⟨l, h, hp⟩ | ⟨l, h, hp⟩)
    · exact ⟨l, Or.inl h, hp⟩
    · exact ⟨l, Or.inr h, hp⟩

theorem hasLineWith_pctLines (p label : String) (pb pc : Option ℚ) (u : String)
    (hlen : p.data.length ≤ label.data.length) :
    hasLineWith p (pctLines label pb pc u) ↔
      strStartsWith p label ∧ pb.isSome ∧ pc.isSome := by
  rcases pb with _ | b <;> rcases pc with _ | c <;>
    simp [pctLines, hasLineWith, strStartsWith_cmpLine p label _ _ _ hlen]

theorem hasLineWith_meanLines (p : String) (cs bs : Option ℚ) (u : String)
    (hlen : p.data.length ≤ ("  mean:   ").data.length) :
    hasLineWith p (meanLines cs bs u) ↔
      (strStartsWith p ("  mean:   ") ∧ cs.isSome ∧ bs.isSome) ∨
      (strStartsWith p ("  mean:   n/a") ∧ (cs.isNone ∨ bs.isNone)) := by
  rcases cs with _ | c <;> rcases bs with _ | b <;>
    simp [meanLines, hasLineWith, strStartsWith_cmpLine p ("  mean:   ") _ _ _ hlen]

theorem hasLineWith_blank (p : String) (h : p ≠ "") :
    ¬ hasLineWith p [""] := by
  intro ⟨l, hl, hp⟩
  rcases List.mem_singleton.mp hl with rfl
  unfold strStartsWith at hp
  simp only [List.take_nil] at hp
  exact h (String.ext (by simp [← hp]))

theorem entryLines_tail (k : EntryKey) (c_entry b_entry : JValue) :
    (entryLines k c_entry b_entry).tail =
      meanLines (get_score (get_metric (entryFields c_entry)))
        (get_score (get_metric (entryFields b_entry)))
        (pickUnit (get_metric (entryFields c_entry)) (get_metric (entryFields b_entry))) ++
      pctLines ("  p50:    ") (get_percentile (get_metric (entryFields b_entry)) ("50.0"))
        (get_percentile (get_metric (entryFields c_entry)) ("50.0"))
        (pickUnit (get_metric (entryFields c_entry)) (get_metric (entryFields b_entry))) ++
      pctLines ("  p99:    ") (get_percentile (get_metric (entryFields b_entry)) ("99.0"))
        (get_percentile (get_metric (entryFields c_entry)) ("99.0"))
        (pickUnit (get_metric (entryFields c_entry)) (get_metric (entryFields b_entry))) ++
      pctLines ("  p99.9:  ") (get_percentile (get_metric (entryFields b_entry)) ("99.9"))
        (get_percentile (get_metric (entryFields c_entry)) ("99.9"))
        (pickUnit (get_metric (entryFields c_entry)) (get_metric (entryFields b_entry))) ++
      [""] := rfl

/-- C10 (confirmed): the unit printed on the metric lines of a matched
key is the current entry scoreUnit when non-empty, else the baseline
entry scoreUnit; a missing or null scoreUnit contributes the empty
string and never an error, and the selected unit is the one placed on
the mean comparison line. -/
theorem c10_unit_selection (c_entry b_entry : JValue) :
    (get_unit (get_metric (entryFields c_entry)) ≠ "" →
      pickUnit (get_metric (entryFields c_entry)) (get_metric (entryFields b_entry)) =
        get_unit (get_metric (entryFields c_entry))) ∧
    (get_unit (get_metric (entryFields c_entry)) = "" →
      pickUnit (get_metric (entryFields c_entry)) (get_metric (entryFields b_entry)) =
        get_unit (get_metric (entryFields b_entry))) ∧
    (getField? (get_metric (entryFields c_entry)) ("scoreUnit") = none →
      get_unit (get_metric (entryFields c_entry)) = "") ∧
    (getField? (get_metric (entryFields c_entry)) ("scoreUnit") = some .null →
      get_unit (get_metric (entryFields c_entry)) = "") ∧
    (∀ (k : EntryKey) (cs bs : ℚ),
      get_score (get_metric (entryFields c_entry)) = some cs →
      get_score (get_metric (entryFields b_entry)) = some bs →
      cmpLine ("  mean:   ") bs cs
          (pickUnit (get_metric (entryFields c_entry)) (get_metric (entryFields b_entry)))
        ∈ entryLines k c_entry b_entry) := by
  refine ⟨fun h => ?_, fun h => ?_, fun h => ?_, fun h => ?_, fun k cs bs h1 h2 => ?_⟩
  · simp [pickUnit, h]
  · simp [pickUnit, h]
  · simp [get_unit, h]
  · simp [get_unit, h]
  · simp [entryLines, meanLines, h1, h2]

theorem c10_unit_selection_witness :
    pickUnit (get_metric (entryFields (entGet 10 9))) (get_metric (entryFields (entGet 20 18))) =
      get_unit (get_metric (entryFields (entGet 10 9))) ∧
    pickUnit (get_metric (entryFields JValue.null)) (get_metric (entryFields (entGet 20 18))) =
      get_unit (get_metric (entryFields (entGet 20 18))) ∧
    cmpLine ("  mean:   ") 20 10
        (pickUnit (get_metric (entryFields (entGet 10 9))) (get_metric (entryFields (entGet 20 18))))
      ∈ entryLines (key_for_entry (entryFields (entGet 10 9)) []) (entGet 10 9) (entGet 20 18) :=
  ⟨(c10_unit_selection (entGet 10 9) (entGet 20 18)).1 (by decide),
   (c10_unit_selection JValue.null (entGet 20 18)).2.1 rfl,
   (c10_unit_selection (entGet 10 9) (entGet 20 18)).2.2.2.2
     (key_for_entry (entryFields (entGet 10 9)) []) 10 20 rfl rfl⟩

/-- C1 (corrected): on a matched key a missing score on either side
makes the mean line render as the unavailable marker; a percentile
value missing on either side causes that percentile line to be omitted
entirely rather than rendered as unavailable; each of the four metric
lines is evaluated independently of the others (its presence depends
only on its own slot), and no error interrupts the block. -/
theorem c1_unavailable_independent (k : EntryKey) (c_entry b_entry : JValue) :
    ((get_score (get_metric (entryFields c_entry)) = none ∨
      get_score (get_metric (entryFields b_entry)) = none) →
      "  mean:   n/a" ∈ entryLines k c_entry b_entry) ∧
    hasLineWith ("  mean:") (entryLines k c_entry b_entry).tail ∧
    (hasLineWith ("  p50:") (entryLines k c_entry b_entry).tail ↔
      (get_percentile (get_metric (entryFields b_entry)) ("50.0")).isSome ∧
      (get_percentile (get_metric (entryFields c_entry)) ("50.0")).isSome) ∧
    (hasLineWith ("  p99:") (entryLines k c_entry b_entry).tail ↔
      (get_percentile (get_metric (entryFields b_entry)) ("99.0")).isSome ∧
      (get_percentile (get_metric (entryFields c_entry)) ("99.0")).isSome) ∧
    (hasLineWith ("  p99.9:") (entryLines k c_entry b_entry).tail ↔
      (get_percentile (get_metric (entryFields b_entry)) ("99.9")).isSome ∧
      (get_percentile (get_metric (entryFields c_entry)) ("99.9")).isSome) := by
  refine ⟨fun h => ?_, ?_, ?_, ?_, ?_⟩
  · rcases h with h | h <;>
      rcases h2 : get_score (get_metric (entryFields c_entry)) with _ | c2 <;>
      rcases h3 : get_score (get_metric (entryFields b_entry)) with _ | b2 <;>
      simp_all [entryLines, meanLines]
  · rw [entryLines_tail]
    rw [hasLineWith_append, hasLineWith_append, hasLineWith_append, hasLineWith_append]
    refine Or.inl (Or.inl (Or.inl (Or.inl ?_)))
    rw [hasLineWith_meanLines _ _ _ _ (by decide)]
    rcases get_score (get_metric (entryFields c_entry)) with _ | c2 <;>
      rcases get_score (get_metric (entryFields b_entry)) with _ | b2 <;>
      simp <;> decide
  · rw [entryLines_tail]
    rw [hasLineWith_append, hasLineWith_append, hasLineWith_append, hasLineWith_append,
      hasLineWith_meanLines _ _ _ _ (by decide),
      hasLineWith_pctLines _ _ _ _ _ (by decide),
      hasLineWith_pctLines _ _ _ _ _ (by decide),
      hasLineWith_pctLines _ _ _ _ _ (by decide)]
    simp [hasLineWith_blank ("  p50:") (by decide), show ¬ strStartsWith ("  p50:") ("  mean:   ") by decide,
      show ¬ strStartsWith ("  p50:") ("  mean:   n/a") by decide,
      show strStartsWith ("  p50:") ("  p50:    ") by decide,
      show ¬ strStartsWith ("  p50:") ("  p99:    ") by decide,
      show ¬ strStartsWith ("  p50:") ("  p99.9:  ") by decide]
  · rw [entryLines_tail]
    rw [hasLineWith_append, hasLineWith_append, hasLineWith_append, hasLineWith_append,
      hasLineWith_meanLines _ _ _ _ (by decide),
      hasLineWith_pctLines _ _ _ _ _ (by decide),
      hasLineWith_pctLines _ _ _ _ _ (by decide),
      hasLineWith_pctLines _ _ _ _ _ (by decide)]
    simp [hasLineWith_blank ("  p99:") (by decide), show ¬ strStartsWith ("  p99:") ("  mean:   ") by decide,
      show ¬ strStartsWith ("  p99:") ("  mean:   n/a") by decide,
      show ¬ strStartsWith ("  p99:") ("  p50:    ") by decide,
      show strStartsWith ("  p99:") ("  p99:    ") by decide,
      show ¬ strStartsWith ("  p99:") ("  p99.9:  ") by decide]
  · rw [entryLines_tail]
    rw [hasLineWith_append, hasLineWith_append, hasLineWith_append, hasLineWith_append,
      hasLineWith_meanLines _ _ _ _ (by decide),
      hasLineWith_pctLines _ _ _ _ _ (by decide),
      hasLineWith_pctLines _ _ _ _ _ (by decide),
      hasLineWith_pctLines _ _ _ _ _ (by decide)]
    simp [hasLineWith_blank ("  p99.9:") (by decide), show ¬ strStartsWith ("  p99.9:") ("  mean:   ") by decide,
      show ¬ strStartsWith ("  p99.9:") ("  mean:   n/a") by decide,
      show ¬ strStartsWith ("  p99.9:") ("  p50:    ") by decide,
      show ¬ strStartsWith ("  p99.9:") ("  p99:    ") by decide,
      show strStartsWith ("  p99.9:") ("  p99.9:  ") by decide]

theorem c1_unavailable_independent_witness :
    "  mean:   n/a" ∈ entryLines (key_for_entry (entryFields (entBI ("A") "x")) [])
      (entBI ("A") "x") (entGet 20 18) :=
  (c1_unavailable_independent (key_for_entry (entryFields (entBI ("A") "x")) [])
    (entBI ("A") "x") (entGet 20 18)).1 (Or.inl rfl)

/-- A matched current entry carrying a score and a p99 value but no
50.0 percentile. -/
def entNoP50 : JValue :=
  .obj [("benchmark", .str ("Get")),
    ("primaryMetric", .obj [("score", .num 10),
      ("scorePercentiles", .obj [("99.0", .num 15)])])]

/-- C1 counterexample: for a matched key whose current entry lacks the
50.0 percentile while the baseline has one, the output block contains
no p50 line at all, so the missing percentile is not reported as an
unavailable line as the claim states. -/
theorem c1_unavailable_counterexample :
    get_percentile (get_metric (entryFields entNoP50)) ("50.0") = none ∧
    (get_percentile (get_metric (entryFields (entGet 20 18))) ("50.0")).isSome = true ∧
    ∀ l ∈ entryLines (key_for_entry (entryFields entNoP50) []) entNoP50 (entGet 20 18),
      ¬ List.IsInfix (("p50").data) l.data := by
  refine ⟨rfl, rfl, ?_⟩
  decide

/-- C5 (confirmed): on two array inputs compare never raises; it
terminates with code zero exactly when some key matches after
filtering and with code one exactly when none does, and in the
no-match case it still prints the no-match message and the counts of
the current-only and baseline-only entries (a count line appears for
each non-empty side; an empty side prints nothing, matching the
if-guards in the source). -/
theorem c5_exit_codes (cur base : String) (ces bes : List JValue) (sub : Option String)
    (ig : List String) :
    compareRun cur base (.arr ces) (.arr bes) sub ig =
      .ok (diffExit ces bes sub ig, diffLines cur base ces bes sub ig) ∧
    (diffExit ces bes sub ig = 0 ↔ matchedKeys ces bes sub ig ≠ []) ∧
    (diffExit ces bes sub ig = 1 ↔ matchedKeys ces bes sub ig = []) ∧
    (matchedKeys ces bes sub ig = [] →
      "No matching benchmark+params entries found between current and baseline." ∈
        diffLines cur base ces bes sub ig) ∧
    (matchedKeys ces bes sub ig = [] → currentOnlyKeys ces bes sub ig ≠ [] →
      ("Current-only entries: " ++ toString (currentOnlyKeys ces bes sub ig).length) ∈
        diffLines cur base ces bes sub ig) ∧
    (matchedKeys ces bes sub ig = [] → baselineOnlyKeys ces bes sub ig ≠ [] →
      ("Baseline-only entries: " ++ toString (baselineOnlyKeys ces bes sub ig).length) ∈
        diffLines cur base ces bes sub ig) := by
  refine ⟨rfl, ?_, ?_, fun h => ?_, fun h h2 => ?_, fun h h2 => ?_⟩
  · unfold diffExit; split <;> simp_all
  · unfold diffExit; split <;> simp_all
  · simp [diffLines, h]
  · simp [diffLines, h, h2]
  · by_cases h3 : currentOnlyKeys ces bes sub ig = [] <;> simp [diffLines, h, h2, h3]

theorem c5_exit_codes_witness :
    diffExit [entBI ("Solo") "x"] [] none [] = 1 ∧
    ("Current-only entries: " ++ toString (currentOnlyKeys [entBI ("Solo") "x"] [] none []).length) ∈
      diffLines ("cur.json") "base.json" [entBI ("Solo") "x"] [] none [] ∧
    diffExit [entGet 10 9] [entGet 20 18] none [] = 0 :=
  ⟨(c5_exit_codes ("cur.json") "base.json" [entBI ("Solo") "x"] [] none []).2.2.1.mpr (by decide),
   (c5_exit_codes ("cur.json") "base.json" [entBI ("Solo") "x"] [] none []).2.2.2.2.1
     (by decide) (by decide),
   (c5_exit_codes ("cur.json") "base.json" [entGet 10 9] [entGet 20 18] none []).2.1.mpr
     (by decide)⟩

theorem lookupIdx_cons (p : EntryKey × JValue) (m : List (EntryKey × JValue)) (k : EntryKey) :
    lookupIdx (p :: m) k = if p.1 = k then some p.2 else lookupIdx m k := by
  by_cases h : p.1 = k <;> simp [lookupIdx, List.find?_cons, h]

theorem lookupIdx_map_update_ne (m : List (EntryKey × JValue)) (k : EntryKey) (v : JValue)
    (k2 : EntryKey) (h : k2 ≠ k) :
    lookupIdx (m.map (fun p => if p.1 = k then (k, v) else p)) k2 = lookupIdx m k2 := by
  induction m with
  | nil => rfl
  | cons hd tl ih =>
    rw [List.map_cons, lookupIdx_cons, lookupIdx_cons]
    by_cases h1 : hd.1 = k
    · rw [if_pos h1]
      rw [if_neg (show ¬ (k, v).1 = k2 from fun hh => h hh.symm),
        if_neg (show ¬ hd.1 = k2 from fun hh => h (h1 ▸ hh).symm)]
      exact ih
    · rw [if_neg h1]
      by_cases h2 : hd.1 = k2 <;> simp [h2, ih]

theorem lookupIdx_map_update_self (m : List (EntryKey × JValue)) (k : EntryKey) (v : JValue)
    (hmem : m.any (fun p => p.1 = k) = true) :
    lookupIdx (m.map (fun p => if p.1 = k then (k, v) else p)) k = some v := by
  induction m with
  | nil => simp at hmem
  | cons hd tl ih =>
    rw [List.map_cons, lookupIdx_cons]
    by_cases h1 : hd.1 = k
    · simp [h1]
    · rw [if_neg h1, if_neg h1]
      apply ih
      simpa [h1] using hmem

theorem lookupIdx_append (m1 m2 : List (EntryKey × JValue)) (k : EntryKey) :
    lookupIdx (m1 ++ m2) k =
      match lookupIdx m1 k with
      | some v => some v
      | none => lookupIdx m2 k := by
  induction m1 with
  | nil => simp [lookupIdx]
  | cons hd tl ih =>
    rw [List.cons_append, lookupIdx_cons, lookupIdx_cons]
    by_cases h : hd.1 = k <;> simp [h, ih]

theorem lookupIdx_none_of_not_any (m : List (EntryKey × JValue)) (k : EntryKey)
    (h : ¬ m.any (fun p => p.1 = k) = true) : lookupIdx m k = none := by
  induction m with
  | nil => rfl
  | cons hd tl ih =>
    rw [lookupIdx_cons]
    simp only [List.any_cons, Bool.or_eq_true, decide_eq_true_eq, not_or] at h
    rw [if_neg h.1]
    exact ih h.2

theorem lookupIdx_insertAssoc (m : List (EntryKey × JValue)) (k : EntryKey) (v : JValue)
    (k2 : EntryKey) :
    lookupIdx (insertAssoc m k v) k2 = if k2 = k then some v else lookupIdx m k2 := by
  unfold insertAssoc
  by_cases hmem : m.any (fun p => p.1 = k) = true
  · rw [if_pos hmem]
    by_cases h2 : k2 = k
    · subst h2
      rw [if_pos rfl]
      exact lookupIdx_map_update_self m k2 v hmem
    · rw [if_neg h2]
      exact lookupIdx_map_update_ne m k v k2 h2
  · rw [if_neg hmem, lookupIdx_append]
    by_cases h2 : k2 = k
    · subst h2
      rw [lookupIdx_none_of_not_any m k2 hmem, if_pos rfl]
      simp [lookupIdx_cons]
    · rw [if_neg h2]
      cases hl : lookupIdx m k2 with
      | some v2 => simp
      | none =>
        simp only []
        rw [lookupIdx_cons]
        simp [show ¬ (k = k2) from fun hh => h2 hh.symm, lookupIdx]

/-- Whether one raw entry contributes the binding the index holds at
key k: it is a dict whose canonical key is k with a non-empty
benchmark name. -/
def contribB (ig : List String) (k : EntryKey) (e : JValue) : Bool :=
  match e with
  | .obj fields => decide (key_for_entry fields ig = k ∧ k.benchmark ≠ "")
  | _ => false

theorem lookupIdx_indexStep_of_not_contrib (ig : List String) (k : EntryKey)
    (acc : List (EntryKey × JValue)) (e : JValue) (hc : contribB ig k e = false) :
    lookupIdx (indexStep ig acc e) k = lookupIdx acc k := by
  cases e with
  | obj fields =>
    simp only [contribB, decide_eq_false_iff_not, not_and, not_not] at hc
    unfold indexStep
    dsimp only
    by_cases hb : (key_for_entry fields ig).benchmark = ""
    · rw [if_pos hb]
    · rw [if_neg hb, lookupIdx_insertAssoc]
      rw [if_neg]
      intro hh
      subst hh
      exact hb (hc rfl)
  | null => rfl
  | bool b => rfl
  | num q => rfl
  | str s => rfl
  | arr l => rfl

theorem lookupIdx_indexStep_of_contrib (ig : List String) (k : EntryKey)
    (acc : List (EntryKey × JValue)) (e : JValue) (hc : contribB ig k e = true) :
    lookupIdx (indexStep ig acc e) k = some e := by
  cases e with
  | obj fields =>
    simp only [contribB, decide_eq_true_eq] at hc
    unfold indexStep
    dsimp only
    rw [if_neg (hc.1 ▸ hc.2), lookupIdx_insertAssoc, if_pos hc.1.symm]
  | null => simp [contribB] at hc
  | bool b => simp [contribB] at hc
  | num q => simp [contribB] at hc
  | str s => simp [contribB] at hc
  | arr l => simp [contribB] at hc

theorem lookupIdx_foldl_indexStep (ig : List String) (k : EntryKey) :
    ∀ (es : List JValue) (acc : List (EntryKey × JValue)),
      lookupIdx (es.foldl (indexStep ig) acc) k =
        match (es.filter (contribB ig k)).getLast? with
        | some e => some e
        | none => lookupIdx acc k := by
  intro es
  induction es with
  | nil => intro acc; rfl
  | cons e es ih =>
    intro acc
    rw [List.foldl_cons, ih]
    by_cases hc : contribB ig k e = true
    · rw [List.filter_cons_of_pos hc]
      cases hl : (es.filter (contribB ig k)).getLast? with
      | some x =>
        have hne : es.filter (contribB ig k) ≠ [] := by
          intro hnil; rw [hnil] at hl; simp at hl
        cases hfe : es.filter (contribB ig k) with
        | nil => exact absurd hfe hne
        | cons y ys =>
          rw [hfe] at hl
          rw [List.getLast?_cons_cons, hl]
      | none =>
        have : es.filter (contribB ig k) = [] := by
          cases hfe : es.filter (contribB ig k) with
          | nil => rfl
          | cons y ys => rw [hfe] at hl; simp [List.getLast?] at hl
        rw [this]
        simp only [List.getLast?_singleton]
        exact lookupIdx_indexStep_of_contrib ig k acc e hc
    · rw [List.filter_cons_of_neg (by simpa using hc)]
      cases hl : (es.filter (contribB ig k)).getLast? with
      | some x => rfl
      | none =>
        exact lookupIdx_indexStep_of_not_contrib ig k acc e (by simpa using hc)

/-- C4 (confirmed): the index holds, at every canonical key, exactly
the last input entry that is a dict with that canonical key and a
non-empty benchmark name; hence non-dict entries and empty benchmark
names never appear and duplicate canonical keys resolve to the later
entry with no error. -/
theorem c4_index_last_write_wins (entries : List JValue) (ig : List String) (k : EntryKey) :
    lookupIdx (index entries ig) k = (entries.filter (contribB ig k)).getLast? := by
  unfold index
  rw [lookupIdx_foldl_indexStep]
  cases hl : (entries.filter (contribB ig k)).getLast? with
  | some x => rfl
  | none => rfl

/-- Strict order on parameter pairs by name, used to see that sorting
by name is unambiguous when the names are distinct. -/
def nameStrict (a b : String × String) : Prop := strLt a.1 b.1

instance : IsAntisymm (String × String) nameStrict :=
  ⟨fun _ _ h1 h2 => absurd h2 (asymm_of strLt h1)⟩

theorem sorted_nameLE_strict (l : List (String × String)) (hs : List.Sorted nameLE l)
    (hnd : (l.map Prod.fst).Nodup) : List.Sorted nameStrict l := by
  have hpw : l.Pairwise (fun a b => a.1 ≠ b.1) := List.pairwise_map.mp hnd
  exact (hs.and hpw).imp (fun h => h.1.resolve_right h.2)

theorem sort_params_eq (l1 l2 : List (String × String)) (hperm : l1.Perm l2)
    (hnd : (l1.map Prod.fst).Nodup) :
    List.insertionSort nameLE l1 = List.insertionSort nameLE l2 := by
  have hp : (List.insertionSort nameLE l1).Perm (List.insertionSort nameLE l2) :=
    (List.perm_insertionSort _ _).trans (hperm.trans (List.perm_insertionSort _ _).symm)
  have hnd1 : ((List.insertionSort nameLE l1).map Prod.fst).Nodup :=
    (((List.perm_insertionSort nameLE l1).map Prod.fst).nodup_iff).mpr hnd
  have hnd2 : ((List.insertionSort nameLE l2).map Prod.fst).Nodup :=
    (((List.perm_insertionSort nameLE l2).map Prod.fst).nodup_iff).mpr
      (((hperm.map Prod.fst).nodup_iff).mp hnd)
  exact List.eq_of_perm_of_sorted hp
    (sorted_nameLE_strict _ (List.sorted_insertionSort _ _) hnd1)
    (sorted_nameLE_strict _ (List.sorted_insertionSort _ _) hnd2)

theorem strMap_foldl (p : List (String × JValue)) :
    ∀ (acc : List (String × String)),
      ((acc.map Prod.fst ++ p.map Prod.fst).Nodup) →
      p.foldl (fun m q => strMapInsert m q.1 (pyStr q.2)) acc =
        acc ++ p.map (fun kv => (kv.1, pyStr kv.2)) := by
  induction p with
  | nil => intro acc _; simp
  | cons hd tl ih =>
    intro acc hnd
    have hni : ¬ acc.any (fun r => r.1 = hd.1) = true := by
      simp only [List.any_eq_true, decide_eq_true_eq, not_exists, not_and]
      intro r hr
      have h1 : r.1 ∈ acc.map Prod.fst := List.mem_map_of_mem Prod.fst hr
      have h2 : hd.1 ∈ hd.1 :: tl.map Prod.fst := List.mem_cons_self _ _
      rw [List.map_cons] at hnd
      have hdisj := (List.nodup_append.mp hnd).2.2
      intro he
      exact hdisj h1 (he ▸ h2)
    rw [List.foldl_cons, strMapInsert, if_neg hni, ih]
    · simp
    · rw [List.map_append]
      rw [List.map_cons, List.append_cons] at hnd
      simpa using hnd

theorem as_str_map_of_nodup (p : List (String × JValue)) (hnd : (p.map Prod.fst).Nodup) :
    as_str_map (.obj p) = p.map (fun kv => (kv.1, pyStr kv.2)) := by
  rw [show as_str_map (.obj p) = p.foldl (fun m q => strMapInsert m q.1 (pyStr q.2)) []
      from rfl,
    strMap_foldl p [] (by simpa using hnd)]
  simp

/-- C8 (confirmed): canonical key derivation is insertion-order
independent: two raw entries with the same benchmark value whose
params dicts hold the same bindings in any insertion orders (dict keys
are distinct) derive identical EntryKeys for every ignore-list, since
parameters are coerced to strings, ignored names removed, and the rest
sorted by name. -/
theorem c8_key_order_independent (f f2 : List (String × JValue))
    (p p2 : List (String × JValue)) (ig : List String)
    (hb : getField? f ("benchmark") = getField? f2 ("benchmark"))
    (hp : getField? f ("params") = some (.obj p))
    (hp2 : getField? f2 ("params") = some (.obj p2))
    (hperm : p.Perm p2) (hnd : (p.map Prod.fst).Nodup) :
    key_for_entry f ig = key_for_entry f2 ig := by
  have hnd2 : (p2.map Prod.fst).Nodup := ((hperm.map Prod.fst).nodup_iff).mp hnd
  unfold key_for_entry
  rw [hb, hp, hp2]
  dsimp only [Option.getD_some]
  congr 1
  rw [as_str_map_of_nodup p hnd, as_str_map_of_nodup p2 hnd2]
  apply sort_params_eq
  · exact List.Perm.filter _ (hperm.map (fun kv => (kv.1, pyStr kv.2)))
  · have hsub : ((p.map (fun kv => (kv.1, pyStr kv.2))).filter
        (fun q => !ig.contains q.1)).Sublist (p.map (fun kv => (kv.1, pyStr kv.2))) :=
      List.filter_sublist _
    have : (((p.map (fun kv => (kv.1, pyStr kv.2))).filter
        (fun q => !ig.contains q.1)).map Prod.fst).Sublist
        ((p.map (fun kv => (kv.1, pyStr kv.2))).map Prod.fst) := hsub.map Prod.fst
    refine List.Nodup.sublist this ?_
    rw [List.map_map]
    simpa using hnd

/-- Entry dict with params listed name b before name a. -/
def fExBA : List (String × JValue) :=
  [("benchmark", .str ("G")), ("params", .obj [("b", .str ("2")), ("a", .str ("1"))])]

/-- Entry dict with params listed name a before name b. -/
def fExAB : List (String × JValue) :=
  [("benchmark", .str ("G")), ("params", .obj [("a", .str ("1")), ("b", .str ("2"))])]

theorem c8_key_order_independent_witness : key_for_entry fExBA [] = key_for_entry fExAB [] :=
  c8_key_order_independent fExBA fExAB [("b", JValue.str ("2")), ("a", JValue.str ("1"))]
    [("a", JValue.str ("1")), ("b", JValue.str ("2"))] [] rfl rfl rfl
    (List.Perm.swap ("a", JValue.str ("1")) ("b", JValue.str ("2")) []) (by decide)

theorem any_key_iff (m : List (EntryKey × JValue)) (k : EntryKey) :
    m.any (fun p => p.1 = k) = true ↔ k ∈ keysOf m := by
  simp [keysOf, List.any_eq_true, List.mem_map]

theorem keysOf_perm_of_perm {m1 m2 : List (EntryKey × JValue)} (h : m1.Perm m2) :
    (keysOf m1).Perm (keysOf m2) := by
  unfold keysOf
  exact h.map _

theorem keysOf_nodup_of_perm {m1 m2 : List (EntryKey × JValue)} (h : m1.Perm m2)
    (hnd : (keysOf m2).Nodup) : (keysOf m1).Nodup :=
  ((keysOf_perm_of_perm h).nodup_iff).mpr hnd

theorem keysOf_map_update (m : List (EntryKey × JValue)) (k : EntryKey) (v : JValue) :
    keysOf (m.map (fun p => if p.1 = k then (k, v) else p)) = keysOf m := by
  unfold keysOf
  rw [List.map_map]
  apply List.map_congr_left
  intro p _
  by_cases h : p.1 = k <;> simp [h]

theorem keysOf_insertAssoc (m : List (EntryKey × JValue)) (k : EntryKey) (v : JValue) :
    keysOf (insertAssoc m k v) =
      if m.any (fun p => p.1 = k) then keysOf m else keysOf m ++ [k] := by
  unfold insertAssoc
  split
  · exact keysOf_map_update m k v
  · simp [keysOf]

theorem index_keys_nodup (es : List JValue) (ig : List String) :
    (keysOf (index es ig)).Nodup := by
  suffices h : ∀ acc, (keysOf acc).Nodup →
      (keysOf (es.foldl (indexStep ig) acc)).Nodup by
    exact h [] List.nodup_nil
  induction es with
  | nil => intro acc hacc; exact hacc
  | cons e es ih =>
    intro acc hacc
    rw [List.foldl_cons]
    apply ih
    cases e with
    | obj fields =>
      unfold indexStep
      dsimp only
      split
      · exact hacc
      · rw [keysOf_insertAssoc]
        split
        · exact hacc
        · next hany =>
          rw [List.nodup_append]
          refine ⟨hacc, List.nodup_singleton _, ?_⟩
          intro a ha hb
          rcases List.mem_singleton.mp hb with rfl
          exact hany ((any_key_iff _ _).mpr ha)
    | null => exact hacc
    | bool b => exact hacc
    | num q => exact hacc
    | str s => exact hacc
    | arr l => exact hacc

theorem lookupIdx_of_mem_nodup (m : List (EntryKey × JValue)) (hnd : (keysOf m).Nodup)
    (k : EntryKey) (v : JValue) (hm : (k, v) ∈ m) : lookupIdx m k = some v := by
  induction m with
  | nil => cases hm
  | cons hd tl ih =>
    rw [lookupIdx_cons]
    rcases List.mem_cons.mp hm with rfl | hmem
    · simp
    · by_cases h : hd.1 = k
      · exfalso
        have hk : k ∈ keysOf tl := by
          have : (k, v).1 ∈ tl.map (fun p => p.1) := List.mem_map_of_mem _ hmem
          simpa [keysOf] using this
        have : hd.1 ∉ keysOf tl := by
          have := hnd
          unfold keysOf at this
          rw [List.map_cons] at this
          exact (List.nodup_cons.mp this).1
        exact this (h ▸ hk)
      · rw [if_neg h]
        apply ih ?_ hmem
        have := hnd
        unfold keysOf at this ⊢
        rw [List.map_cons] at this
        exact (List.nodup_cons.mp this).2

theorem lookupIdx_eq_of_perm (m1 m2 : List (EntryKey × JValue)) (h : m1.Perm m2)
    (hnd : (keysOf m1).Nodup) (k : EntryKey) : lookupIdx m1 k = lookupIdx m2 k := by
  cases hl : lookupIdx m1 k with
  | none =>
    unfold lookupIdx at hl ⊢
    rw [Option.map_eq_none'] at hl
    symm
    rw [Option.map_eq_none', List.find?_eq_none]
    rw [List.find?_eq_none] at hl
    intro x hx
    exact hl x (h.symm.subset hx)
  | some v =>
    unfold lookupIdx at hl
    rcases Option.map_eq_some'.mp hl with ⟨x, hfind, hv⟩
    have hpred := List.find?_some hfind
    have hx1 : x.1 = k := by simpa using hpred
    have hmem : x ∈ m1 := List.mem_of_find?_eq_some hfind
    have hx : x = (k, v) := by
      cases x
      simp only at hx1 hv
      rw [hx1, hv]
    have hnd2 : (keysOf m2).Nodup := keysOf_nodup_of_perm h.symm hnd
    exact (lookupIdx_of_mem_nodup m2 hnd2 k v (h.subset (hx ▸ hmem))).symm

theorem sortKeys_eq_of_perm (l1 l2 : List EntryKey) (h : l1.Perm l2) :
    List.insertionSort keyLE l1 = List.insertionSort keyLE l2 :=
  List.eq_of_perm_of_sorted
    ((List.perm_insertionSort _ _).trans (h.trans (List.perm_insertionSort _ _).symm))
    (List.sorted_insertionSort _ _) (List.sorted_insertionSort _ _)

/-- C7 (confirmed): the matched, current-only and baseline-only lists
are sorted ascending by the pair (benchmark, params), and re-ordering
either input list in any way that builds the same index dicts leaves
all three output lists unchanged. -/
theorem c7_sorted_order_independent (ces bes ces2 bes2 : List JValue) (sub : Option String)
    (ig : List String) :
    List.Sorted keyLE (matchedKeys ces bes sub ig) ∧
    List.Sorted keyLE (currentOnlyKeys ces bes sub ig) ∧
    List.Sorted keyLE (baselineOnlyKeys ces bes sub ig) ∧
    ((index ces2 ig).Perm (index ces ig) → (index bes2 ig).Perm (index bes ig) →
      matchedKeys ces2 bes2 sub ig = matchedKeys ces bes sub ig ∧
      currentOnlyKeys ces2 bes2 sub ig = currentOnlyKeys ces bes sub ig ∧
      baselineOnlyKeys ces2 bes2 sub ig = baselineOnlyKeys ces bes sub ig) := by
  refine ⟨List.sorted_insertionSort _ _, List.sorted_insertionSort _ _,
    List.sorted_insertionSort _ _, fun hc hb => ?_⟩
  have hndc2 : (keysOf (index ces2 ig)).Nodup :=
    keysOf_nodup_of_perm hc (index_keys_nodup ces ig)
  have hndb2 : (keysOf (index bes2 ig)).Nodup :=
    keysOf_nodup_of_perm hb (index_keys_nodup bes ig)
  have hkc : (keysOf (index ces2 ig)).Perm (keysOf (index ces ig)) := keysOf_perm_of_perm hc
  have hkb : (keysOf (index bes2 ig)).Perm (keysOf (index bes ig)) := keysOf_perm_of_perm hb
  have hlb : ∀ k, lookupIdx (index bes2 ig) k = lookupIdx (index bes ig) k :=
    lookupIdx_eq_of_perm _ _ hb hndb2
  have hlc : ∀ k, lookupIdx (index ces2 ig) k = lookupIdx (index ces ig) k :=
    lookupIdx_eq_of_perm _ _ hc hndc2
  refine ⟨?_, ?_, ?_⟩
  · unfold matchedKeys
    apply sortKeys_eq_of_perm
    rw [List.filter_congr (fun k _ => by rw [hlb k] :
      ∀ k ∈ keysOf (index ces2 ig),
        ((lookupIdx (index bes2 ig) k).isSome && matchesBenchmark k sub) =
        ((lookupIdx (index bes ig) k).isSome && matchesBenchmark k sub))]
    exact hkc.filter _
  · unfold currentOnlyKeys
    apply sortKeys_eq_of_perm
    rw [List.filter_congr (fun k _ => by rw [hlb k] :
      ∀ k ∈ keysOf (index ces2 ig),
        ((lookupIdx (index bes2 ig) k).isNone && matchesBenchmark k sub) =
        ((lookupIdx (index bes ig) k).isNone && matchesBenchmark k sub))]
    exact hkc.filter _
  · unfold baselineOnlyKeys
    apply sortKeys_eq_of_perm
    rw [List.filter_congr (fun k _ => by rw [hlc k] :
      ∀ k ∈ keysOf (index bes2 ig),
        ((lookupIdx (index ces2 ig) k).isNone && matchesBenchmark k sub) =
        ((lookupIdx (index ces ig) k).isNone && matchesBenchmark k sub))]
    exact hkb.filter _

theorem c7_sorted_order_independent_witness :
    matchedKeys [entBI ("B") "y", entBI ("A") "x"] [entBI ("A") "x"] none [] =
      matchedKeys [entBI ("A") "x", entBI ("B") "y"] [entBI ("A") "x"] none [] :=
  ((c7_sorted_order_independent [entBI ("A") "x", entBI ("B") "y"] [entBI ("A") "x"]
      [entBI ("B") "y", entBI ("A") "x"] [entBI ("A") "x"] none []).2.2.2
    (List.Perm.swap _ _ _) (List.Perm.refl _)).1

/-- Well-formed table entry: a dict whose benchmark and implementation
fields (when present) are strings and whose params, primaryMetric and
scorePercentiles fields (when present and truthy) are dicts.  Every
entry produced by JMH satisfies this. -/
def entryWFB (e : JValue) : Bool :=
  match e with
  | .obj f =>
    (match getField? f ("benchmark") with
     | none => true
     | some (.str _) => true
     | some _ => false) &&
    (match getField? f ("params") with
     | none => true
     | some p =>
       if p.truthy then
         match p with
         | .obj pf =>
           (match getField? pf ("implementation") with
            | none => true
            | some (.str _) => true
            | some _ => false)
         | _ => false
       else true) &&
    (match getField? f ("primaryMetric") with
     | none => true
     | some m =>
       if m.truthy then
         match m with
         | .obj mf =>
           (match getField? mf ("scorePercentiles") with
            | none => true
            | some pc =>
              if pc.truthy then
                (match pc with
                 | .obj _ => true
                 | _ => false)
              else true)
         | _ => false
       else true)
  | _ => false

theorem exceptBind_ok {α β : Type} (a : α) (f : α → Except String β) :
    (Except.ok a >>= f : Except String β) = f a := rfl

theorem buildRow_wf (e : JValue) (h : entryWFB e = true) :
    ∃ r, buildRow e = .ok r ∧ (rowKeyStr? r).isSome = true := by
  cases e with
  | obj f =>
    simp only [entryWFB, Bool.and_eq_true] at h
    obtain ⟨⟨h1, h2⟩, h3⟩ := h
    have hbench : ∃ s, (getField? f ("benchmark")).getD (.str ("")) = .str s := by
      rcases hb : getField? f ("benchmark") with _ | v
      · exact ⟨"", rfl⟩
      · rw [hb] at h1
        cases v <;> simp_all
    have hparams : ∃ pfields, orEmptyObj ((getField? f ("params")).getD .null) = .ok pfields ∧
        (∃ s, (getField? pfields ("implementation")).getD (.str ("")) = .str s) := by
      rcases hp : getField? f ("params") with _ | p
      · exact ⟨[], rfl, "", rfl⟩
      · rw [hp] at h2
        dsimp only at h2
        by_cases ht : p.truthy = true
        · rw [if_pos ht] at h2
          cases p with
          | obj pf =>
            dsimp only at h2
            refine ⟨pf, by simp [orEmptyObj, ht], ?_⟩
            rcases hi : getField? pf ("implementation") with _ | v
            · exact ⟨"", rfl⟩
            · rw [hi] at h2
              cases v <;> simp_all
          | null => simp at h2
          | bool b => simp at h2
          | num q => simp at h2
          | str s => simp at h2
          | arr l => simp at h2
        · rw [if_neg ht] at h2
          exact ⟨[], by simp [orEmptyObj, ht], "", rfl⟩
    have hmetric : ∃ mfields, orEmptyObj ((getField? f ("primaryMetric")).getD .null) = .ok mfields ∧
        (∃ pcfields, orEmptyObj ((getField? mfields ("scorePercentiles")).getD .null) = .ok pcfields) := by
      rcases hm : getField? f ("primaryMetric") with _ | m
      · exact ⟨[], rfl, [], rfl⟩
      · rw [hm] at h3
        dsimp only at h3
        by_cases ht : m.truthy = true
        · rw [if_pos ht] at h3
          cases m with
          | obj mf =>
            dsimp only at h3
            refine ⟨mf, by simp [orEmptyObj, ht], ?_⟩
            rcases hpc : getField? mf ("scorePercentiles") with _ | pc
            · exact ⟨[], rfl⟩
            · rw [hpc] at h3
              dsimp only at h3
              by_cases ht2 : pc.truthy = true
              · rw [if_pos ht2] at h3
                cases pc with
                | obj pcf => exact ⟨pcf, by simp [orEmptyObj, ht2]⟩
                | null => simp at h3
                | bool b => simp at h3
                | num q => simp at h3
                | str s => simp at h3
                | arr l => simp at h3
              · rw [if_neg ht2] at h3
                exact ⟨[], by simp [orEmptyObj, ht2]⟩
          | null => simp at h3
          | bool b => simp at h3
          | num q => simp at h3
          | str s => simp at h3
          | arr l => simp at h3
        · rw [if_neg ht] at h3
          exact ⟨[], by simp [orEmptyObj, ht], [], rfl⟩
    obtain ⟨bs, hbs⟩ := hbench
    obtain ⟨pfields, hpf, is, his⟩ := hparams
    obtain ⟨mfields, hmf, pcfields, hpcf⟩ := hmetric
    refine ⟨Row.mk (.str bs) (.str is)
      ((getField? mfields ("score")).getD .null)
      ((getField? pcfields ("50.0")).getD .null)
      ((getField? pcfields ("99.0")).getD .null)
      ((getField? pcfields ("99.9")).getD .null)
      ((getField? mfields ("scoreUnit")).getD (.str (""))), ?_, rfl⟩
    show (do
      let bench := (getField? f ("benchmark")).getD (.str (""))
      let params ← orEmptyObj ((getField? f ("params")).getD .null)
      let impl := (getField? params ("implementation")).getD (.str (""))
      let metric ← orEmptyObj ((getField? f ("primaryMetric")).getD .null)
      let pct ← orEmptyObj ((getField? metric ("scorePercentiles")).getD .null)
      Except.ok
        { full := bench
          impl := impl
          mean := (getField? metric ("score")).getD .null
          p50 := (getField? pct ("50.0")).getD .null
          p99 := (getField? pct ("99.0")).getD .null
          p999 := (getField? pct ("99.9")).getD .null
          unit := (getField? metric ("scoreUnit")).getD (.str ("")) } : Except String Row) = _
    rw [hpf, exceptBind_ok, hmf, exceptBind_ok, hpcf, exceptBind_ok, hbs, his]
  | null => simp [entryWFB] at h
  | bool b => simp [entryWFB] at h
  | num q => simp [entryWFB] at h
  | str s => simp [entryWFB] at h
  | arr l => simp [entryWFB] at h

theorem mapM_ok_of_forall {α β : Type} (f : α → Except String β) (P : β → Prop) :
    ∀ (l : List α), (∀ a ∈ l, ∃ b, f a = .ok b ∧ P b) →
      ∃ bs, l.mapM f = .ok bs ∧ ∀ b ∈ bs, P b := by
  intro l
  induction l with
  | nil => intro _; exact ⟨[], rfl, by simp⟩
  | cons a l ih =>
    intro h
    obtain ⟨b, hfb, hPb⟩ := h a (List.mem_cons_self a l)
    obtain ⟨bs, hbs, hPbs⟩ := ih (fun x hx => h x (List.mem_cons_of_mem _ hx))
    refine ⟨b :: bs, ?_, ?_⟩
    · rw [List.mapM_cons, hfb]
      show (Except.ok b >>= fun b => l.mapM f >>= fun bs => pure (b :: bs)) = _
      rw [exceptBind_ok, hbs, exceptBind_ok]
      rfl
    · intro x hx
      rcases List.mem_cons.mp hx with rfl | hx2
      · exact hPb
      · exact hPbs x hx2

theorem sortRows_ok_of_all (rows : List Row) (h : ∀ r ∈ rows, (rowKeyStr? r).isSome = true) :
    sortRows rows = .ok (List.insertionSort rowLe rows) := by
  unfold sortRows
  rw [if_pos (List.all_eq_true.mpr (fun r hr => h r hr))]

theorem full_str_of_rowKey (r : Row) (h : (rowKeyStr? r).isSome = true) :
    ∃ s, r.full = .str s := by
  obtain ⟨full, impl, mean, p50, p99, p999, unit⟩ := r
  cases full <;> cases impl <;> simp_all [rowKeyStr?]

theorem groupRuns_key_mem : ∀ (l : List Row), ∀ g ∈ groupRuns l, ∃ r ∈ l, g.1 = r.full := by
  intro l
  induction l with
  | nil => intro g hg; cases hg
  | cons r rs ih =>
    intro g hg
    unfold groupRuns at hg
    rcases hgr : groupRuns rs with _ | ⟨⟨k, grp⟩, rest⟩
    · rw [hgr] at hg
      rcases List.mem_singleton.mp hg with rfl
      exact ⟨r, List.mem_cons_self _ _, rfl⟩
    · rw [hgr] at hg
      dsimp only at hg
      by_cases he : fullEqB r.full k = true
      · rw [if_pos he] at hg
        rcases List.mem_cons.mp hg with rfl | hgrest
        · exact ⟨r, List.mem_cons_self _ _, rfl⟩
        · obtain ⟨r2, hr2, he2⟩ := ih g (hgr ▸ List.mem_cons_of_mem _ hgrest)
          exact ⟨r2, List.mem_cons_of_mem _ hr2, he2⟩
      · rw [if_neg he] at hg
        rcases List.mem_cons.mp hg with rfl | hgrest
        · exact ⟨r, List.mem_cons_self _ _, rfl⟩
        · obtain ⟨r2, hr2, he2⟩ := ih g (hgr ▸ hgrest)
          exact ⟨r2, List.mem_cons_of_mem _ hr2, he2⟩

/-- C6 (corrected, positive part): the table tool terminates normally
(exit code zero) on every input that parses as a JSON array of
well-formed entry objects. -/
theorem c6_table_exit (es : List JValue) (hwf : ∀ e ∈ es, entryWFB e = true) :
    ∃ out, tableRun (.arr es) = .ok out := by
  obtain ⟨rows, hrows, hP⟩ := mapM_ok_of_forall buildRow
    (fun r => (rowKeyStr? r).isSome = true) es (fun e he => buildRow_wf e (hwf e he))
  have hbuild : buildRows (.arr es) = .ok rows := by
    unfold buildRows pyIter
    show (Except.ok es >>= fun items => items.mapM buildRow) = _
    rw [exceptBind_ok, hrows]
  have hsorted : sortRows rows = .ok (List.insertionSort rowLe rows) :=
    sortRows_ok_of_all rows hP
  have hPs : ∀ r ∈ List.insertionSort rowLe rows, (rowKeyStr? r).isSome = true := fun r hr =>
    hP r ((List.perm_insertionSort rowLe rows).subset hr)
  obtain ⟨texts, htexts, _⟩ := mapM_ok_of_forall (fun g => renderGroup g.1 g.2)
    (fun _ => True) (groupRuns (List.insertionSort rowLe rows))
    (fun g hg => by
      obtain ⟨r, hr, he⟩ := groupRuns_key_mem _ g hg
      obtain ⟨s, hs⟩ := full_str_of_rowKey r (hPs r hr)
      refine ⟨renderGroupStr s g.2, ?_, trivial⟩
      show renderGroup g.1 g.2 = _
      rw [he, hs]
      rfl)
  refine ⟨rstripStr (String.intercalate ("\n") ((texts.map (fun t => [t, ""])).flatten)), ?_⟩
  show (do
    let rows ← buildRows (.arr es)
    let sorted ← sortRows rows
    let texts ← (groupRuns sorted).mapM (fun g => renderGroup g.1 g.2)
    Except.ok (rstripStr (String.intercalate ("\n") ((texts.map (fun t => [t, ""])).flatten)))
      : Except String String) = _
  rw [hbuild, exceptBind_ok, hsorted, exceptBind_ok, htexts, exceptBind_ok]

theorem c6_table_exit_witness :
    ∃ out, tableRun (.arr [entBI ("A") "x", entBI ("B") "y", entGet 10 9]) = .ok out :=
  c6_table_exit [entBI ("A") "x", entBI ("B") "y", entGet 10 9] (by decide)

/-- C6 counterexample: the input text consisting of the array with the
single number one parses as JSON (and is even a JSON array), yet the
table tool dies with an uncaught AttributeError, a non-zero exit; and
the empty-object input, which is not a JSON array, iterates zero keys
and exits zero rather than terminating fatally. -/
theorem c6_table_exit_counterexample :
    tableRun (.arr [.num 1]) = .error ("AttributeError: entry object has no attribute get") ∧
    tableRun (.obj []) = .ok ("") := ⟨rfl, rfl⟩

theorem groupRuns_flatten : ∀ l : List Row, ((groupRuns l).map (fun g => g.2)).flatten = l := by
  intro l
  induction l with
  | nil => rfl
  | cons r rs ih =>
    unfold groupRuns
    rcases hgr : groupRuns rs with _ | ⟨⟨k, grp⟩, rest⟩
    · rw [hgr] at ih
      simp only [List.map_nil, List.flatten_nil] at ih
      simp [← ih]
    · rw [hgr] at ih
      dsimp only
      by_cases he : fullEqB r.full k = true
      · rw [if_pos he]
        simp only [List.map_cons, List.flatten_cons] at ih ⊢
        rw [List.cons_append, ih]
      · rw [if_neg he]
        simp only [List.map_cons, List.flatten_cons] at ih ⊢
        rw [List.singleton_append, ih]

theorem groupRuns_str_groups : ∀ (l : List Row), (∀ r ∈ l, ∃ s, r.full = .str s) →
    ∀ g ∈ groupRuns l, ∃ s, g.1 = .str s ∧ g.2 ≠ [] ∧ ∀ r ∈ g.2, r.full = .str s := by
  intro l
  induction l with
  | nil => intro _ g hg; cases hg
  | cons r rs ih =>
    intro hstr g hg
    obtain ⟨s, hs⟩ := hstr r (List.mem_cons_self _ _)
    have hstr2 : ∀ x ∈ rs, ∃ s2, x.full = .str s2 :=
      fun x hx => hstr x (List.mem_cons_of_mem _ hx)
    unfold groupRuns at hg
    rcases hgr : groupRuns rs with _ | ⟨⟨k, grp⟩, rest⟩
    · rw [hgr] at hg
      rcases List.mem_singleton.mp hg with rfl
      exact ⟨s, hs, by simp, fun x hx => by
        rcases List.mem_singleton.mp hx with rfl; exact hs⟩
    · rw [hgr] at hg
      dsimp only at hg
      by_cases he : fullEqB r.full k = true
      · rw [if_pos he] at hg
        rcases List.mem_cons.mp hg with rfl | hrest
        · refine ⟨s, hs, by simp, ?_⟩
          intro x hx
          rcases List.mem_cons.mp hx with rfl | hx2
          · exact hs
          · obtain ⟨s2, hk2, _, hall⟩ := ih hstr2 (k, grp) (hgr ▸ List.mem_cons_self _ _)
            have hss : s = s2 := by
              rw [hs, show k = JValue.str s2 from hk2] at he
              simpa [fullEqB] using he
            rw [hss]
            exact hall x hx2
        · exact ih hstr2 g (hgr ▸ List.mem_cons_of_mem _ hrest)
      · rw [if_neg he] at hg
        rcases List.mem_cons.mp hg with rfl | hrest
        · exact ⟨s, hs, by simp, fun x hx => by
            rcases List.mem_singleton.mp hx with rfl; exact hs⟩
        · exact ih hstr2 g (hgr ▸ hrest)

/-- C9 (confirmed): the table renderer sorts rows by benchmark
identifier then implementation label (a stable sort producing a list
sorted under that order and a permutation of the input) and partitions
the sorted rows into consecutive runs sharing one benchmark
identifier; on the three-entry example with benchmarks A, A, B it
yields exactly the two groups A (rows x then y) and B (one row). -/
theorem c9_table_grouping :
    (∀ (rows sorted : List Row), sortRows rows = .ok sorted →
      sorted.Perm rows ∧ List.Sorted rowLe sorted) ∧
    (∀ l : List Row, ((groupRuns l).map (fun g => g.2)).flatten = l) ∧
    (∀ (l : List Row), (∀ r ∈ l, ∃ s, r.full = .str s) →
      ∀ g ∈ groupRuns l, ∃ s, g.1 = .str s ∧ g.2 ≠ [] ∧ ∀ r ∈ g.2, r.full = .str s) ∧
    tableGroups (.arr [entBI ("A") "x", entBI ("A") "y", entBI ("B") "z"]) =
      .ok [(.str ("A"), [rowBI ("A") "x", rowBI ("A") "y"]), (.str ("B"), [rowBI ("B") "z"])] := by
  refine ⟨?_, groupRuns_flatten, groupRuns_str_groups, rfl⟩
  intro rows sorted h
  unfold sortRows at h
  split at h
  · injection h with h2
    subst h2
    exact ⟨List.perm_insertionSort _ _, List.sorted_insertionSort _ _⟩
  · cases h

theorem c9_table_grouping_witness :
    (List.insertionSort rowLe [rowBI ("B") "z", rowBI ("A") "x"]).Perm
      [rowBI ("B") "z", rowBI ("A") "x"] ∧
    (∀ g ∈ groupRuns [rowBI ("A") "x"], ∃ s, g.1 = JValue.str s ∧ g.2 ≠ [] ∧
      ∀ r ∈ g.2, r.full = JValue.str s) :=
  ⟨(c9_table_grouping.1 [rowBI ("B") "z", rowBI ("A") "x"]
      (List.insertionSort rowLe [rowBI ("B") "z", rowBI ("A") "x"]) rfl).1,
   c9_table_grouping.2.2.1 [rowBI ("A") "x"]
     (fun r hr => by rcases List.mem_singleton.mp hr with rfl; exact ⟨"A", rfl⟩)⟩
